import Mathlib

/-!
Verification of the conversation-memory engine of the `interclaude` repository.

Texts are modelled as `List Char` (`Str`); JavaScript numbers that only ever
hold integers are modelled as `Nat`, and relevance scores (true fractions) as
`ℚ`.  Dynamically-typed JavaScript values that can be a string, an array of
strings, or `undefined` are modelled by `JsVal`.  File-system state is an
association list from paths to file contents; clock readings, `uuid` draws and
"today" dates are passed as explicit parameters.  All definitions follow the
JavaScript source (`server/memory/storage.js`, `server/memory/index.js`,
`server/memory/indexer.js`, `server/memory/retriever.js`) line by line.
-/

set_option maxRecDepth 20000

abbrev Str := List Char

/-- The whitespace class used by JavaScript `String.prototype.trim`
(restricted to the ASCII/latin-1 characters that can occur here). -/
def isJsWS (c : Char) : Bool :=
  c = ' ' || c = '\n' || c = '\t' || c = '\r' || c = '\x0b' || c = '\x0c'

/-- JavaScript `String.prototype.trim`. -/
def jsTrim (s : Str) : Str :=
  ((s.dropWhile isJsWS).reverse.dropWhile isJsWS).reverse

/-- Split a string on a single character; like JavaScript `s.split(c)` this
keeps empty pieces and always returns at least one piece. -/
def splitOnChar (sep : Char) : Str → List Str
  | [] => [[]]
  | c :: t =>
    let r := splitOnChar sep t
    if c = sep then [] :: r
    else match r with
      | [] => [[c]]
      | p :: ps => (c :: p) :: ps

/-- JavaScript `[...new Set(l)]`: deduplication keeping first occurrences. -/
def jsDedupGo : List Str → List Str → List Str
  | _, [] => []
  | seen, x :: xs => if x ∈ seen then jsDedupGo seen xs else x :: jsDedupGo (x :: seen) xs

def jsDedup (l : List Str) : List Str := jsDedupGo [] l

/-- JavaScript `Set.prototype.add` on a set represented as its insertion-ordered
element list. -/
def setAdd (l : List Str) (x : Str) : List Str := if x ∈ l then l else l ++ [x]

/-- A dynamically-typed JavaScript value as used by the memory subsystem:
a string, an array of strings, or `undefined`. -/
inductive JsVal
  | undefined
  | str (s : Str)
  | arr (l : List Str)

deriving DecidableEq

/-- JavaScript strict equality `===` on `JsVal`.  Two arrays are distinct
objects in every comparison performed by this code base, so `arr === arr`
is modelled as `false`. -/
def jsStrictEq : JsVal → JsVal → Bool
  | .undefined, .undefined => true
  | .str a, .str b => a == b
  | _, _ => false

/-- JavaScript truthiness of a `JsVal` (`undefined` and `""` are falsy,
every array is truthy). -/
def jsTruthy : JsVal → Bool
  | .undefined => false
  | .str s => !s.isEmpty
  | .arr _ => true

/-- JavaScript string conversion as performed by template literals:
arrays are joined with `,`, `undefined` prints as `undefined`. -/
def jsToString : JsVal → Str
  | .undefined => "undefined".toList
  | .str s => s
  | .arr l => List.intercalate ",".toList l

/-- JavaScript spread `[...v]` of a value into a list of strings: an array
spreads to its elements, a string to its characters.  Spreading `undefined`
throws in JavaScript; it never happens in the modelled flows (parser outputs
default to `[]`), and is modelled as `[]`. -/
def jsSpreadToList : JsVal → List Str
  | .undefined => []
  | .str s => s.map (fun c => [c])
  | .arr l => l

/-- Insertion-ordered association list lookup (JavaScript object property
read `o[k]`). -/
def alistGet? (l : List (Str × α)) (k : Str) : Option α :=
  (l.find? (fun p => p.1 == k)).map (·.2)

/-- JavaScript object property write `o[k] = v`: updates in place, appends a
new key at the end (objects preserve string-key insertion order). -/
def alistSet (l : List (Str × α)) (k : Str) (v : α) : List (Str × α) :=
  if (l.find? (fun p => p.1 == k)).isSome then
    l.map (fun p => if p.1 == k then (p.1, v) else p)
  else l ++ [(k, v)]

/-- `o[k] = (o[k] || 0) + 1` on a counter object. -/
def alistBump (l : List (Str × Nat)) (k : Str) : List (Str × Nat) :=
  alistSet l k ((alistGet? l k).getD 0 + 1)

/-- Stable insertion into a list sorted by strictly descending key: the new
element goes in front of the first element whose key is not larger.  This is
the unique result of a stable sort with the JavaScript comparator
`(a, b) => keyOf(b) - keyOf(a)` (ECMAScript sorts are stable). -/
def insDesc [LinearOrder β] (key : α → β) (x : α) : List α → List α
  | [] => [x]
  | y :: ys => if key y ≤ key x then x :: y :: ys else y :: insDesc key x ys

/-- Stable sort by descending key (see `insDesc`). -/
def sortDesc [LinearOrder β] (key : α → β) : List α → List α
  | [] => []
  | x :: xs => insDesc key x (sortDesc key xs)

/-- Insertion into a list sorted by ascending key: the new element goes in
front of the first element whose key is larger. -/
def insAsc [LinearOrder β] (key : α → β) (x : α) : List α → List α
  | [] => [x]
  | y :: ys => if key x < key y then x :: y :: ys else y :: insAsc key x ys

/-- Sort by ascending key (see `insAsc`). -/
def sortAsc [LinearOrder β] (key : α → β) : List α → List α
  | [] => []
  | x :: xs => insAsc key x (sortAsc key xs)

/-- The numeric value of an all-digit string. -/
def strToNat (s : Str) : Nat := s.foldl (fun a c => a * 10 + (c.toNat - '0'.toNat)) 0

/-- An ECMAScript array-index property key: the canonical decimal string of an
integer below `2^32 - 1` (all digits, no leading zero unless the key is `"0"`
itself). -/
def isArrayIndexKey (s : Str) : Bool :=
  !s.isEmpty && s.all Char.isDigit && (!(s.head? == some '0') || s == ['0']) &&
    strToNat s < 4294967295

/-- The order in which `Object.entries` (ES2015+ `[[OwnPropertyKeys]]`)
enumerates an ordinary object's own string keys: array-index keys first in
ascending numeric order, then the remaining keys in insertion order.  The
association list `l` holds the properties in insertion order. -/
def jsEntriesOrder {α : Type} (l : List (Str × α)) : List (Str × α) :=
  sortAsc (fun p => strToNat p.1) (l.filter (fun p => isArrayIndexKey p.1)) ++
    l.filter (fun p => !isArrayIndexKey p.1)

/-! ## Text analyzer (`server/memory/indexer.js`) -/

/-- The fixed stop-word list `STOP_WORDS` of `indexer.js`. -/
def STOP_WORDS : List Str :=
  (["a", "an", "and", "are", "as", "at", "be", "by", "for", "from", "has",
    "have", "he", "in", "is", "it", "its", "of", "on", "or", "that", "the",
    "to", "was", "were", "will", "with", "would", "can", "could", "do",
    "does", "did", "how", "what", "when", "where", "which", "who", "why",
    "this", "these", "those", "i", "you", "we", "they", "my", "your", "our",
    "their", "me", "him", "her", "us", "them", "if", "then", "else", "but",
    "not", "no", "yes", "so", "just", "more", "most", "some", "any", "all",
    "also", "than", "only", "very", "too", "now", "here", "there", "up",
    "down", "out", "about", "into", "over", "after", "before", "between",
    "under", "again", "should", "need", "want", "like", "get", "make",
    "know", "think", "see", "use", "used", "using", "way", "work",
    "working", "thing", "please", "thanks", "thank", "help", "question",
    "answer", "example"] : List String).map String.toList

/-- The fixed topic taxonomy `TOPIC_KEYWORDS` of `indexer.js`. -/
def TOPIC_KEYWORDS : List (Str × List Str) :=
  ([("security",
     ["auth", "authentication", "authorization", "jwt", "token", "oauth",
      "password", "encrypt", "hash", "ssl", "tls", "https", "api-key",
      "secret", "credential", "permission", "role", "session", "cookie"]),
    ("api-design",
     ["api", "rest", "graphql", "endpoint", "request", "response", "http",
      "get", "post", "put", "delete", "patch", "route", "path", "query",
      "parameter", "header", "body", "status", "swagger", "openapi"]),
    ("database",
     ["database", "db", "sql", "nosql", "query", "table", "schema", "index",
      "migration", "postgres", "mysql", "mongodb", "redis", "sqlite", "orm",
      "model", "relation", "join", "transaction"]),
    ("frontend",
     ["react", "vue", "angular", "svelte", "html", "css", "javascript",
      "typescript", "component", "state", "props", "hook", "dom", "browser",
      "ui", "ux", "style", "responsive", "mobile"]),
    ("backend",
     ["server", "node", "express", "fastify", "middleware", "handler",
      "controller", "service", "repository", "microservice", "monolith",
      "lambda", "serverless", "docker", "kubernetes"]),
    ("testing",
     ["test", "unit", "integration", "e2e", "jest", "mocha", "cypress",
      "playwright", "mock", "stub", "fixture", "assertion", "coverage",
      "tdd", "bdd"]),
    ("devops",
     ["deploy", "ci", "cd", "pipeline", "build", "release", "docker",
      "container", "kubernetes", "k8s", "aws", "gcp", "azure", "terraform",
      "ansible", "monitoring", "logging"]),
    ("performance",
     ["performance", "optimize", "cache", "speed", "latency", "throughput",
      "memory", "cpu", "profiling", "benchmark", "load", "scale",
      "concurrent"]),
    ("architecture",
     ["architecture", "design", "pattern", "mvc", "mvvm", "clean",
      "hexagonal", "domain", "layer", "module", "dependency", "injection",
      "solid", "dry", "kiss"]),
    ("error-handling",
     ["error", "exception", "catch", "throw", "try", "finally", "debug",
      "log", "trace", "stack", "bug", "fix", "issue", "problem"])]
   : List (String × List String)).map (fun p => (p.1.toList, p.2.map String.toList))

/-- A character kept by the tokenizer's character class `[a-z0-9\-_]`. -/
def isTokenChar (c : Char) : Bool :=
  ('a' ≤ c && c ≤ 'z') || ('0' ≤ c && c ≤ '9') || c = '-' || c = '_'

/-- `tokenize` of `indexer.js`: lowercase, replace every character outside
`[a-z0-9\-_]` by a space, split on whitespace, keep tokens of length > 2.
(`Char.toLower` models `String.prototype.toLowerCase` on the ASCII range.) -/
def tokenize (text : Str) : List Str :=
  (splitOnChar ' '
    ((text.map Char.toLower).map (fun c => if isTokenChar c then c else ' '))).filter
    (fun w => 2 < w.length)

/-- The frequency-counting loop of `extractKeywords`: count each non-stop-word
token, keys in first-encounter order. -/
def countFrequencies (tokens : List Str) : List (Str × Nat) :=
  tokens.foldl (fun freqs t => if t ∈ STOP_WORDS then freqs else alistBump freqs t) []

/-- `extractKeywords(text, maxKeywords)` of `indexer.js`:
`Object.entries(frequencies).sort((a, b) => b[1] - a[1]).slice(0, maxKeywords)
.map(([word]) => word)`.  `Object.entries` enumerates array-index-like keys
(all-digit tokens such as `"404"`) first in ascending numeric order and only
then the remaining keys in insertion order (`jsEntriesOrder`); the stable
descending sort by count is applied to that enumeration. -/
def extractKeywords (text : Str) (maxKeywords : Nat) : List Str :=
  ((sortDesc (fun p : Str × Nat => p.2)
      (jsEntriesOrder (countFrequencies (tokenize text)))).take maxKeywords).map (·.1)

/-- `extractKeywordsFromExchange(question, answer, maxKeywords)`. -/
def extractKeywordsFromExchange (question answer : Str) (maxKeywords : Nat) : List Str :=
  extractKeywords (question ++ " ".toList ++ question ++ " ".toList ++ answer) maxKeywords

/-- `extractTopics(text, existingTopics)` of `indexer.js`: a topic is added
when at least 2 of its keywords occur among the tokens. -/
def extractTopics (text : Str) (existingTopics : List Str) : List Str :=
  let tokens := tokenize text
  TOPIC_KEYWORDS.foldl
    (fun acc p => if 2 ≤ p.2.countP (fun k => k ∈ tokens) then setAdd acc p.1 else acc)
    (jsDedup existingTopics)

/-- `extractTopicsFromExchange(question, answer, existingTopics)`. -/
def extractTopicsFromExchange (question answer : Str) (existingTopics : List Str) : List Str :=
  extractTopics (question ++ " ".toList ++ answer) existingTopics

/-- `findKeywordMatches(queryKeywords, keywordIndex)` of `indexer.js`.  The
conversation ids stored in the index can be any JavaScript value; object keys
coerce them to strings (`jsToString`). -/
def findKeywordMatches (queryKeywords : List Str) (keywordIndex : List (Str × List JsVal)) :
    List (Str × Nat) :=
  queryKeywords.foldl
    (fun mtchs k =>
      ((alistGet? keywordIndex k).getD []).foldl (fun m cid => alistBump m (jsToString cid)) mtchs)
    []

example : tokenize "How do I use JWT authentication?".toList =
    ["how", "use", "jwt", "authentication"].map String.toList := by decide
example : extractKeywords "jwt token JWT authentication".toList 10 =
    ["jwt", "token", "authentication"].map String.toList := by decide
example : extractTopics "jwt token authentication".toList [] = ["security".toList] := by decide
example : extractTopics "jwt only".toList [] = [] := by decide

/-! ## Conversation persistence (`server/memory/storage.js`): encoding -/

/-- One question/answer exchange. -/
structure Exchange where
  timestamp : Str
  question : Str
  answer : Str

deriving DecidableEq

/-- A conversation record as the dynamically-typed object that flows through
`storage.js` (fields read back from disk can be strings, arrays, or absent). -/
structure Conversation where
  id : JsVal
  sessionId : JsVal
  created : JsVal
  updated : JsVal
  keywords : JsVal
  topics : JsVal
  exchanges : List Exchange

deriving DecidableEq

/-- `value || []` applied by the source to keyword/topic fields. -/
def jsOrEmptyArr (v : JsVal) : JsVal := if jsTruthy v then v else .arr []

/-- `generateFrontmatter(metadata)` of `storage.js`: `---`, one `key: value`
line per entry (arrays bracketed and comma-joined), `---` and a blank line. -/
def generateFrontmatter (md : List (Str × JsVal)) : Str :=
  List.intercalate ['\n']
    (["---".toList] ++
      md.map (fun p =>
        p.1 ++ ": ".toList ++
          (match p.2 with
           | .arr l => '[' :: (List.intercalate ", ".toList l ++ [']'])
           | v => jsToString v)) ++
      ["---\n".toList])

def QUESTION_LIT : Str := "## Question ".toList

def TIMESTAMP_LIT : Str := "\n**Timestamp:** ".toList

def ANSWER_MARK : Str := "\n\n### Answer\n\n".toList

def EXCHANGE_SEP : Str := "\n---\n".toList

/-- One numbered exchange section of the conversation body. -/
def exchangeSection (n : Nat) (e : Exchange) : Str :=
  QUESTION_LIT ++ Nat.toDigits 10 n ++ TIMESTAMP_LIT ++ e.timestamp ++ "\n\n".toList ++
    e.question ++ ANSWER_MARK ++ e.answer ++ "\n\n".toList

/-- The body loop of `generateConversationMarkdown`: sections are separated by
a `---` horizontal rule except after the last exchange. -/
def conversationBody : Nat → List Exchange → Str
  | _, [] => []
  | n, [e] => exchangeSection n e
  | n, e :: e' :: rest =>
    exchangeSection n e ++ "---\n\n".toList ++ conversationBody (n + 1) (e' :: rest)

/-- `generateConversationMarkdown(conversationData)` of `storage.js`. -/
def generateConversationMarkdown (c : Conversation) : Str :=
  generateFrontmatter
    [("id".toList, c.id), ("session_id".toList, c.sessionId),
     ("created".toList, c.created), ("updated".toList, c.updated),
     ("keywords".toList, jsOrEmptyArr c.keywords),
     ("topics".toList, jsOrEmptyArr c.topics)] ++
  conversationBody 1 c.exchanges

/-! ## Conversation persistence: decoding

The decoders implement the exact leftmost-match semantics of the source's
regular expressions: every quantifier in those patterns is either a greedy
character-class run followed by a literal the class cannot match (hence
deterministic) or a lazy `[\s\S]*?` followed by a literal/lookahead (hence
"up to the first occurrence"). -/

/-- Strip a literal from the front (`none` when the literal does not match). -/
def dropLit? (lit s : Str) : Option Str :=
  if lit.isPrefixOf s then some (s.drop lit.length) else none

/-- Split at the first occurrence of `pat`, consuming it:
`some (before, after)`; `none` when `pat` does not occur.  This is lazy
`([\s\S]*?)` followed by the literal `pat`. -/
def splitAtMarker (pat : Str) : Str → Option (Str × Str)
  | [] => if pat.isPrefixOf ([] : Str) then some ([], []) else none
  | c :: t =>
    if pat.isPrefixOf (c :: t) then some ([], (c :: t).drop pat.length)
    else (splitAtMarker pat t).map (fun p => (c :: p.1, p.2))

/-- Lazy run ending at the first position where `\n---\n` follows (lookahead,
not consumed) or at the end of the input: the answer capture group. -/
def answerSplit : Str → Str × Str
  | [] => ([], [])
  | c :: t =>
    if EXCHANGE_SEP.isPrefixOf (c :: t) then ([], c :: t)
    else
      let p := answerSplit t
      (c :: p.1, p.2)

/-- The character class `[^\n]` of the timestamp capture group. -/
def notNL (c : Char) : Bool := c != '\n'

/-- One attempt of the exchange regex of `parseConversationMarkdown` at the
current position; returns the parsed exchange and the rest of the input after
the match (the regex's `lastIndex`). -/
def matchExchangeAt (s : Str) : Option (Exchange × Str) :=
  match dropLit? QUESTION_LIT s with
  | none => none
  | some s1 =>
    if (s1.takeWhile Char.isDigit).isEmpty then none
    else
      match dropLit? TIMESTAMP_LIT (s1.dropWhile Char.isDigit) with
      | none => none
      | some s3 =>
        if (s3.takeWhile notNL).isEmpty then none
        else
          match dropLit? "\n\n".toList (s3.dropWhile notNL) with
          | none => none
          | some s4 =>
            match splitAtMarker ANSWER_MARK s4 with
            | none => none
            | some qs =>
              some ({ timestamp := s3.takeWhile notNL, question := jsTrim qs.1,
                      answer := jsTrim (answerSplit qs.2).1 }, (answerSplit qs.2).2)

/-- Leftmost match of the exchange regex: try each start position in turn. -/
def findExchange : Str → Option (Exchange × Str)
  | [] => none
  | c :: t =>
    match matchExchangeAt (c :: t) with
    | some r => some r
    | none => findExchange t

/-- The `while exec` loop of `parseConversationMarkdown` with explicit fuel
(every match consumes at least one character, so `length + 1` steps always
suffice; see `parseExchangesGo_fuel` and `parseExchangesFrom_eq`). -/
def parseExchangesGo : Nat → Str → List Exchange
  | 0, _ => []
  | fuel + 1, s =>
    match findExchange s with
    | none => []
    | some r => r.1 :: parseExchangesGo fuel r.2

/-- Collect the successive leftmost matches of the exchange regex. -/
def parseExchangesFrom (s : Str) : List Exchange := parseExchangesGo (s.length + 1) s

/-- Metadata lookup `metadata[key]` (`undefined` when absent).  Keys written by
`parseFrontmatterLines` are unique, so first match equals JavaScript's read. -/
def metaGet (md : List (Str × JsVal)) (k : Str) : JsVal :=
  ((md.find? (fun p => p.1 == k)).map (·.2)).getD .undefined

/-- `line.indexOf(':')`. -/
def colonIdx? : Str → Option Nat
  | [] => none
  | c :: t => if c = ':' then some 0 else (colonIdx? t).map (· + 1)

/-- One line of the frontmatter-parsing loop of `parseMarkdownFrontmatter`:
split at the first `:` (required at index > 0), trim key and value, and parse
`[ ... ]` values into comma-split, trimmed arrays. -/
def parseFrontmatterLine (line : Str) : Option (Str × JsVal) :=
  match colonIdx? line with
  | none => none
  | some i =>
    if i = 0 then none
    else
      let key := jsTrim (line.take i)
      let value := jsTrim (line.drop (i + 1))
      if value.head? = some '[' ∧ value.getLast? = some ']' then
        some (key, .arr ((splitOnChar ',' ((value.drop 1).dropLast)).map jsTrim))
      else
        some (key, .str value)

/-- The frontmatter-parsing loop (later lines overwrite earlier keys, as
JavaScript object assignment does). -/
def parseFrontmatterLines (lines : List Str) : List (Str × JsVal) :=
  lines.foldl
    (fun md line =>
      match parseFrontmatterLine line with
      | none => md
      | some kv => alistSet md kv.1 kv.2) []

/-- `parseMarkdownFrontmatter(content)` of `storage.js`: the anchored regex
`^---\n([\s\S]*?)\n---\n([\s\S]*)$`; on failure the whole content is the body
with empty metadata. -/
def parseMarkdownFrontmatter (content : Str) : List (Str × JsVal) × Str :=
  match dropLit? "---\n".toList content with
  | none => ([], content)
  | some rest =>
    match splitAtMarker "\n---\n".toList rest with
    | none => ([], content)
    | some fmBody => (parseFrontmatterLines (splitOnChar '\n' fmBody.1), fmBody.2)

/-- `parseConversationMarkdown(content)` of `storage.js`. -/
def parseConversationMarkdown (content : Str) : Conversation :=
  let p := parseMarkdownFrontmatter content
  { id := metaGet p.1 "id".toList,
    sessionId := metaGet p.1 "session_id".toList,
    created := metaGet p.1 "created".toList,
    updated := metaGet p.1 "updated".toList,
    keywords := jsOrEmptyArr (metaGet p.1 "keywords".toList),
    topics := jsOrEmptyArr (metaGet p.1 "topics".toList),
    exchanges := parseExchangesFrom p.2 }

/-! ## The index (`server/memory/storage.js`) -/

/-- An entry of a topic's link list in the index.  Entries written by
`updateIndex` carry a summary; entries re-read from disk do not (`undefined`). -/
structure TopicEntry where
  id : JsVal
  path : Str
  summary : JsVal

deriving DecidableEq

/-- An entry of the index's `recent` list. -/
structure RecentEntry where
  date : Str
  id : JsVal
  summary : Str
  keywords : JsVal
  path : Str

deriving DecidableEq

/-- The per-instance index aggregate (the source's field `instance` is a Lean
keyword and is named `instanceName` here). -/
structure Index where
  instanceName : JsVal
  lastUpdated : JsVal
  totalConversations : Nat
  topics : List (Str × List TopicEntry)
  keywords : List (Str × List JsVal)
  recent : List RecentEntry

deriving DecidableEq

/-- `createEmptyIndex(instanceName)` of `storage.js` (`new Date().toISOString()`
is the explicit `now` parameter). -/
def createEmptyIndex (name now : Str) : Index :=
  { instanceName := .str name, lastUpdated := .str now, totalConversations := 0,
    topics := [], keywords := [], recent := [] }

/-- `array.join(sep)`; calling `join` on a non-array throws in JavaScript and
never happens in the modelled flows (modelled as `""`). -/
def jsJoinSep (sep : Str) : JsVal → Str
  | .arr l => List.intercalate sep l
  | _ => []

/-- `parseInt(x) || 0` for the decimal-digit strings this code writes
(sign/radix prefixes never occur; anything non-numeric gives `NaN`, hence 0). -/
def jsParseIntOr0 (v : JsVal) : Nat :=
  let ds := ((jsToString v).dropWhile isJsWS).takeWhile Char.isDigit
  if ds.isEmpty then 0 else ds.foldl (fun a c => a * 10 + (c.toNat - '0'.toNat)) 0

/-- `saveIndex`'s body/frontmatter generation (`storage.js` lines 375-412);
the file content that would be written (`new Date().toISOString()` is `now`). -/
def saveIndexContent (indexData : Index) (now : Str) : Str :=
  generateFrontmatter
    [("instance".toList, indexData.instanceName), ("last_updated".toList, .str now),
     ("total_conversations".toList, .str (Nat.toDigits 10 indexData.totalConversations))] ++
  "# Conversation Memory Index\n\n## By Topic\n\n".toList ++
  (indexData.topics.map (fun tp =>
      "### ".toList ++ tp.1 ++ "\n".toList ++
      (tp.2.map (fun e =>
          "- [".toList ++ jsToString e.id ++ "](".toList ++ e.path ++ ") - ".toList ++
          (if jsTruthy e.summary then jsToString e.summary else []) ++ "\n".toList)).flatten ++
      "\n".toList)).flatten ++
  "## By Keyword\n\n| Keyword | Conversations |\n|---------|---------------|\n".toList ++
  (indexData.keywords.map (fun kw =>
      "| ".toList ++ kw.1 ++ " | ".toList ++
      List.intercalate ", ".toList (kw.2.map jsToString) ++ " |\n".toList)).flatten ++
  "\n".toList ++
  "## Recent Conversations\n\n".toList ++
  (indexData.recent.enum.map (fun p =>
      Nat.toDigits 10 (p.1 + 1) ++ ". [".toList ++ p.2.date ++ "] ".toList ++
      jsToString p.2.id ++ " - ".toList ++ p.2.summary ++ " (keywords: ".toList ++
      jsJoinSep ", ".toList p.2.keywords ++ ") - path: ".toList ++ p.2.path ++
      "\n".toList)).flatten

/-- The character class `\w` (`[A-Za-z0-9_]`). -/
def isWordChar (c : Char) : Bool := c.isAlphanum || c = '_'

/-- Lazy run up to (excluding) the first position where one of the lookahead
alternatives matches, or to the end of the input. -/
def lazyUpToAny (stops : List Str) : Str → Str
  | [] => []
  | c :: t => if stops.any (fun p => p.isPrefixOf (c :: t)) then [] else c :: lazyUpToAny stops t

/-- One attempt of the per-topic regex `### (\w+)\n([\s\S]*?)(?=\n### |\n## |$)`
at the current position. -/
def matchTopicAt (s : Str) : Option ((Str × Str) × Str) :=
  match dropLit? "### ".toList s with
  | none => none
  | some s1 =>
    if (s1.takeWhile isWordChar).isEmpty then none
    else
      match dropLit? "\n".toList (s1.dropWhile isWordChar) with
      | none => none
      | some s2 =>
        let inner := lazyUpToAny ["\n### ".toList, "\n## ".toList] s2
        some ((s1.takeWhile isWordChar, inner), s2.drop inner.length)

/-- One attempt of the link regex `\[([^\]]+)\]\(([^)]+)\)` at the current
position. -/
def matchLinkAt (s : Str) : Option ((Str × Str) × Str) :=
  match dropLit? "[".toList s with
  | none => none
  | some s1 =>
    if (s1.takeWhile (fun c => c != ']')).isEmpty then none
    else
      match dropLit? "](".toList (s1.dropWhile (fun c => c != ']')) with
      | none => none
      | some s2 =>
        if (s2.takeWhile (fun c => c != ')')).isEmpty then none
        else
          match dropLit? ")".toList (s2.dropWhile (fun c => c != ')')) with
          | none => none
          | some rest =>
            some ((s1.takeWhile (fun c => c != ']'), s2.takeWhile (fun c => c != ')')), rest)

/-- Leftmost match: try each start position in turn. -/
def findFirstMatch (matchAt : Str → Option (α × Str)) : Str → Option (α × Str)
  | [] => none
  | c :: t =>
    match matchAt (c :: t) with
    | some r => some r
    | none => findFirstMatch matchAt t

/-- A global regex's `exec` loop (each match consumes at least one character,
so `length + 1` steps of fuel always suffice). -/
def globalMatches (matchAt : Str → Option (α × Str)) : Nat → Str → List α
  | 0, _ => []
  | fuel + 1, s =>
    match findFirstMatch matchAt s with
    | none => []
    | some r => r.1 :: globalMatches matchAt fuel r.2

/-- The recent-list line regex
`\d+\. \[([^\]]+)\] ([^ ]+) - ([^(]+)\(keywords: ([^)]+)\) - path: ([^\s]+)`
attempted at the current position.  Every quantifier is a greedy
character-class run followed by a literal outside the class, hence
deterministic. -/
def matchRecentLineAt (s : Str) : Option RecentEntry :=
  let ds := s.takeWhile Char.isDigit
  if ds.isEmpty then none
  else
    match dropLit? ". [".toList (s.dropWhile Char.isDigit) with
    | none => none
    | some s1 =>
      let date := s1.takeWhile (fun c => c != ']')
      if date.isEmpty then none
      else
        match dropLit? "] ".toList (s1.dropWhile (fun c => c != ']')) with
        | none => none
        | some s2 =>
          let cid := s2.takeWhile (fun c => c != ' ')
          if cid.isEmpty then none
          else
            match dropLit? " - ".toList (s2.dropWhile (fun c => c != ' ')) with
            | none => none
            | some s3 =>
              let summ := s3.takeWhile (fun c => c != '(')
              if summ.isEmpty then none
              else
                match dropLit? "(keywords: ".toList (s3.dropWhile (fun c => c != '(')) with
                | none => none
                | some s4 =>
                  let kws := s4.takeWhile (fun c => c != ')')
                  if kws.isEmpty then none
                  else
                    match dropLit? ") - path: ".toList (s4.dropWhile (fun c => c != ')')) with
                    | none => none
                    | some s5 =>
                      let path := s5.takeWhile (fun c => !isJsWS c)
                      if path.isEmpty then none
                      else
                        some { date := date, id := .str cid, summary := jsTrim summ,
                               keywords := .arr ((splitOnChar ',' kws).map jsTrim),
                               path := path }

/-- First match of the recent-line regex anywhere in a line
(`line.match(...)`, non-global). -/
def findRecentLine : Str → Option RecentEntry
  | [] => none
  | c :: t =>
    match matchRecentLineAt (c :: t) with
    | some r => some r
    | none => findRecentLine t

/-- `parseIndexMarkdown(content)` of `storage.js`. -/
def parseIndexMarkdown (content : Str) : Index :=
  let p := parseMarkdownFrontmatter content
  let body := p.2
  let topics :=
    match splitAtMarker "## By Topic\n\n".toList body with
    | none => []
    | some tp =>
      let sect := lazyUpToAny ["\n## ".toList] tp.2
      (globalMatches matchTopicAt (sect.length + 1) sect).foldl
        (fun acc nm =>
          alistSet acc nm.1
            ((globalMatches matchLinkAt (nm.2.length + 1) nm.2).map
              (fun lk => { id := .str lk.1, path := lk.2, summary := .undefined : TopicEntry })))
        []
  let keywords :=
    match splitAtMarker "## By Keyword\n\n|".toList body with
    | none => []
    | some kp =>
      match splitAtMarker "\n\n".toList kp.2 with
      | none => []
      | some kq =>
        let match0 := "## By Keyword\n\n|".toList ++ kq.1 ++ "\n\n".toList
        ((splitOnChar '\n' match0).drop 3).foldl
          (fun kw row =>
            match ((splitOnChar '|' row).map jsTrim).filter (fun c => !c.isEmpty) with
            | c0 :: c1 :: _ =>
              alistSet kw c0 (((splitOnChar ',' c1).map jsTrim).map JsVal.str)
            | _ => kw)
          []
  let recent :=
    match splitAtMarker "## Recent Conversations\n\n".toList body with
    | none => []
    | some rp => (splitOnChar '\n' (jsTrim rp.2)).filterMap findRecentLine
  { instanceName := metaGet p.1 "instance".toList,
    lastUpdated := metaGet p.1 "last_updated".toList,
    totalConversations := jsParseIntOr0 (metaGet p.1 "total_conversations".toList),
    topics := topics, keywords := keywords, recent := recent }

/-- `updateIndex(indexData, conversationData, relativePath)` of `storage.js`
(`new Date().toISOString()` is the explicit `now` parameter).  `for…of` over
the conversation's keyword/topic fields is `jsSpreadToList`; `created.split('T')`
is modelled through string conversion (a non-string `created` would throw). -/
def updateIndex (indexData : Index) (c : Conversation) (relativePath : Str) (now : Str) :
    Index :=
  let summary :=
    (match c.exchanges.head? with
     | some e => e.question.take 50
     | none => "undefined".toList) ++ "...".toList
  let date := (jsToString c.created).takeWhile (fun ch => ch != 'T')
  let newTopics :=
    (jsSpreadToList c.topics).foldl
      (fun nt topic =>
        let cur := (alistGet? nt topic).getD []
        if (cur.find? (fun e => jsStrictEq e.id c.id)).isSome then alistSet nt topic cur
        else alistSet nt topic
          (cur ++ [{ id := c.id, path := relativePath, summary := .str summary : TopicEntry }]))
      indexData.topics
  let newKeywords :=
    (jsSpreadToList c.keywords).foldl
      (fun nk keyword =>
        let cur := (alistGet? nk keyword).getD []
        if cur.any (fun v => jsStrictEq v c.id) then alistSet nk keyword cur
        else alistSet nk keyword (cur ++ [c.id]))
      indexData.keywords
  let newRecent0 :=
    { date := date, id := c.id, summary := summary, keywords := c.keywords,
      path := relativePath : RecentEntry } ::
      indexData.recent.filter (fun r => !jsStrictEq r.id c.id)
  let newRecent := if 50 < newRecent0.length then newRecent0.take 50 else newRecent0
  { indexData with
    lastUpdated := .str now,
    totalConversations := (newRecent.map (fun r => r.id)).dedup.length,
    topics := newTopics, keywords := newKeywords, recent := newRecent }

/-- `createConversation(sessionId, question, answer, keywords, topics)` of
`storage.js`; `uuidv4().substring(0, 8)` is the explicit `newId` draw and
`new Date().toISOString()` the explicit `now`. -/
def createConversation (sessionId : JsVal) (question answer : Str)
    (keywords topics : List Str) (now newId : Str) : Conversation :=
  { id := .str newId, sessionId := sessionId, created := .str now, updated := .str now,
    keywords := .arr keywords, topics := .arr topics,
    exchanges := [{ timestamp := now, question := question, answer := answer }] }

/-- `appendToConversation(conversationData, question, answer, newKeywords,
newTopics)` of `storage.js`. -/
def appendToConversation (c : Conversation) (question answer : Str)
    (newKeywords newTopics : List Str) (now : Str) : Conversation :=
  { c with
    updated := .str now,
    keywords := .arr (jsDedup (jsSpreadToList c.keywords ++ newKeywords)),
    topics := .arr (jsDedup (jsSpreadToList c.topics ++ newTopics)),
    exchanges := c.exchanges ++ [{ timestamp := now, question := question, answer := answer }] }

/-! ## File-system model and the storage operations -/

/-- The files visible to the storage layer: an association from paths to
contents.  A missing path models any read failure (the `catch` paths). -/
structure Fs where
  files : List (Str × Str)

deriving DecidableEq

def fsRead (fs : Fs) (p : Str) : Option Str := alistGet? fs.files p

/-- An atomic write (temp file + rename): afterwards the path holds exactly
the new content. -/
def fsWrite (fs : Fs) (p content : Str) : Fs := ⟨alistSet fs.files p content⟩

/-- `path.join` for the plain path segments used here. -/
def joinPath (a b : Str) : Str := a ++ "/".toList ++ b

def indexFilePath (base inst : Str) : Str := joinPath (joinPath base inst) "index.md".toList

/-- `loadIndex(basePath, instanceName)` of `storage.js`: parse the index file,
or the empty index when the read fails. -/
def loadIndex (fs : Fs) (base inst now : Str) : Index :=
  match fsRead fs (indexFilePath base inst) with
  | some content => parseIndexMarkdown content
  | none => createEmptyIndex inst now

/-- `loadConversation(basePath, instanceName, conversationId)` of `storage.js`:
resolve the id through the index's `recent` list, then read and parse the
file; any read failure gives `none`. -/
def loadConversation (fs : Fs) (base inst : Str) (conversationId : JsVal) (now : Str) :
    Option Conversation :=
  let index := loadIndex fs base inst now
  match index.recent.find? (fun item => jsStrictEq item.id conversationId) with
  | none => none
  | some item =>
    (fsRead fs (joinPath (joinPath base inst) item.path)).map parseConversationMarkdown

/-- `saveConversation(basePath, instanceName, conversationData)` of
`storage.js`: write the markdown under `conversations/{today}/conv-{id}.md`
and return the relative path (`getDateDirectory()` is the `today` parameter). -/
def saveConversation (fs : Fs) (base inst today : Str) (c : Conversation) : Str × Fs :=
  let rel := "conversations/".toList ++ today ++ "/conv-".toList ++ jsToString c.id ++ ".md".toList
  (rel, fsWrite fs (joinPath (joinPath base inst) rel) (generateConversationMarkdown c))

/-- `saveIndex(basePath, instanceName, indexData)` of `storage.js`. -/
def saveIndex (fs : Fs) (base inst : Str) (idx : Index) (now : Str) : Fs :=
  fsWrite fs (indexFilePath base inst) (saveIndexContent idx now)

/-- `findConversationBySessionId(basePath, instanceName, sessionId)` of
`storage.js`: scan the recent list, loading each conversation until one has
the wanted session id. -/
def findConversationBySessionId (fs : Fs) (base inst : Str) (sessionId : JsVal) (now : Str) :
    Option Conversation :=
  (loadIndex fs base inst now).recent.findSome?
    (fun item =>
      match loadConversation fs base inst item.id now with
      | some conv => if jsStrictEq conv.sessionId sessionId then some conv else none
      | none => none)

/-! ## Retriever (`server/memory/retriever.js`) -/

/-- `findRelevantConversations(question, index, {maxResults, minScore,
recencyBoost})` of `retriever.js`, as the list of `(conversationId, score)`
pairs in ranked order.  The `...conversationInfo[id]` spread on the returned
objects is omitted from the model: the spread entries never contain `id` or
`score` fields that differ, so the scores and order are unaffected. -/
def findRelevantConversations (question : Str) (index : Index)
    (maxResults : Nat) (minScore recencyBoost : ℚ) : List (Str × ℚ) :=
  let queryKeywords := extractKeywords question 10
  let queryTopics := extractTopics question []
  let keywordMatches := findKeywordMatches queryKeywords index.keywords
  let scores0 : List (Str × ℚ) :=
    keywordMatches.map (fun p => (p.1, (p.2 : ℚ) / (queryKeywords.length : ℚ)))
  let scores1 :=
    index.topics.foldl
      (fun sc tp =>
        if tp.1 ∈ queryTopics then
          tp.2.foldl
            (fun sc e =>
              alistSet sc (jsToString e.id)
                (((alistGet? sc (jsToString e.id)).getD 0) + 3 / 10))
            sc
        else sc)
      scores0
  let recentIds := index.recent.map (fun r => jsToString r.id)
  let scores2 :=
    recentIds.enum.foldl
      (fun sc p =>
        match alistGet? sc p.2 with
        | some s =>
          if s ≠ 0 then
            alistSet sc p.2 (s + recencyBoost * (1 - (p.1 : ℚ) / (recentIds.length : ℚ)))
          else sc
        | none => sc)
      scores1
  (sortDesc (fun p : Str × ℚ => p.2) (scores2.filter (fun p => minScore ≤ p.2))).take maxResults

/-- A match as consumed by `formatContextForInjection`: only its `exchanges`
field is read (`none` models an object without that field). -/
structure CtxMatch where
  exchanges : Option (List Exchange)

deriving DecidableEq

/-- `Q: …\nA: …\n\n` for one exchange. -/
def exchangeText (e : Exchange) : Str :=
  "Q: ".toList ++ e.question ++ "\nA: ".toList ++ e.answer ++ "\n\n".toList

/-- The inner exchange loop of `formatContextForInjection`: returns the pushed
lines and the updated token estimate.  `Math.ceil(len / 4)` is `(len + 3) / 4`. -/
def fmtExchanges (maxTokens : Nat) : Nat → List Exchange → List Str × Nat
  | est, [] => ([], est)
  | est, e :: rest =>
    let txt := exchangeText e
    let tok := (txt.length + 3) / 4
    if maxTokens < est + tok then
      (if 50 < maxTokens - est then [txt.take ((maxTokens - est) * 4) ++ "...\n".toList]
       else [],
       est)
    else
      let r := fmtExchanges maxTokens (est + tok) rest
      (txt :: r.1, r.2)

/-- The outer match loop: skip matches without exchanges, and stop once 90% of
the budget is consumed (`est >= maxTokens * 0.9`, i.e. `10*est >= 9*maxTokens`
in exact arithmetic). -/
def fmtMatches (maxTokens : Nat) : Nat → List CtxMatch → List Str × Nat
  | est, [] => ([], est)
  | est, m :: ms =>
    match m.exchanges with
    | none => fmtMatches maxTokens est ms
    | some exs =>
      if exs.isEmpty then fmtMatches maxTokens est ms
      else
        let r := fmtExchanges maxTokens est exs
        if 9 * maxTokens ≤ 10 * r.2 then (r.1, r.2)
        else
          let r2 := fmtMatches maxTokens r.2 ms
          (r.1 ++ r2.1, r2.2)

def CTX_HEADER : Str := "--- Relevant Past Conversations ---\n".toList

def CTX_FOOTER : Str := "--- End Past Conversations ---\n".toList

/-- `formatContextForInjection(matches, maxTokens)` of `retriever.js`
(the initial estimate 10 is the header overhead; `lines.join('')`). -/
def formatContextForInjection (ms : List CtxMatch) (maxTokens : Nat) : Str :=
  if ms.isEmpty then []
  else (CTX_HEADER :: ((fmtMatches maxTokens 10 ms).1 ++ [CTX_FOOTER])).flatten

/-! ## Memory orchestrator (`server/memory/index.js`) -/

/-- The module-level `config` of `server/memory/index.js`. -/
structure MemConfig where
  enabled : Bool
  basePath : Str
  instanceName : Str
  maxContextItems : Nat
  maxContextTokens : Nat

deriving DecidableEq

/-- The orchestrator's mutable state: the files on disk and the cached index. -/
structure MemState where
  fs : Fs
  indexCache : Option Index

deriving DecidableEq

/-- The result object of `recordConversation`. -/
structure RecordResult where
  recorded : Bool
  conversationId : Option JsVal
  isNewConversation : Option Bool
  keywords : Option (List Str)
  topics : Option (List Str)
  failReason : Option Str

deriving DecidableEq

/-- `getCachedIndex()`: use the cache when it exists and its TTL has not
elapsed (the clock comparison `now - indexCacheTime > TTL` is the boolean
parameter `cacheFresh`), otherwise reload from disk. -/
def getCachedIndex (cfg : MemConfig) (st : MemState) (cacheFresh : Bool) (now : Str) : Index :=
  match st.indexCache with
  | some idx =>
    if cacheFresh then idx else loadIndex st.fs cfg.basePath cfg.instanceName now
  | none => loadIndex st.fs cfg.basePath cfg.instanceName now

/-- `recordConversation(question, answer, sessionId, metadata)` of
`server/memory/index.js`: find-or-create the conversation for the session,
persist it, update and persist the index, refresh the cache, and report
whether a new conversation was started. -/
def recordConversation (cfg : MemConfig) (st : MemState) (question answer : Str)
    (sessionId : JsVal) (cacheFresh : Bool) (now today newId : Str) :
    RecordResult × MemState :=
  if !cfg.enabled then
    ({ recorded := false, conversationId := none, isNewConversation := none,
       keywords := none, topics := none, failReason := some "Memory disabled".toList }, st)
  else
    let keywords := extractKeywordsFromExchange question answer 10
    let topics := extractTopicsFromExchange question answer []
    let found :=
      if jsTruthy sessionId then
        findConversationBySessionId st.fs cfg.basePath cfg.instanceName sessionId now
      else none
    let conv :=
      match found with
      | some c => appendToConversation c question answer keywords topics now
      | none => createConversation sessionId question answer keywords topics now newId
    let saved := saveConversation st.fs cfg.basePath cfg.instanceName today conv
    let index := getCachedIndex cfg st cacheFresh now
    let updated := updateIndex index conv saved.1 now
    let fs2 := saveIndex saved.2 cfg.basePath cfg.instanceName updated now
    ({ recorded := true, conversationId := some conv.id,
       isNewConversation := some (!jsTruthy sessionId || conv.exchanges.length == 1),
       keywords := some keywords, topics := some topics, failReason := none },
     { fs := fs2, indexCache := some updated })

/-- `getConversation(conversationId)` of `server/memory/index.js`. -/
def getConversation (cfg : MemConfig) (st : MemState) (conversationId : Str) (now : Str) :
    Option Conversation :=
  if cfg.enabled then
    loadConversation st.fs cfg.basePath cfg.instanceName (.str conversationId) now
  else none

/-- The effect of `initializeMemory` on a fresh directory
(`ensureDirectoryStructure` writes an empty index, which is then pre-loaded
into the cache). -/
def initializeState (base inst now : Str) : MemState :=
  let fs := saveIndex ⟨[]⟩ base inst (createEmptyIndex inst now) now
  { fs := fs, indexCache := some (loadIndex fs base inst now) }

/-- A well-formed exchange for the round-trip: non-empty single-line timestamp
and single-line question/answer texts (the counterexample shows multi-line
texts that embed the section markers are mangled). -/
def goodExchange (e : Exchange) : Prop :=
  e.timestamp ≠ [] ∧ '\n' ∉ e.timestamp ∧ '\n' ∉ e.question ∧ '\n' ∉ e.answer

instance : DecidablePred goodExchange := fun e => by unfold goodExchange; infer_instance

/-- What decoding provably returns for an exchange: question and answer come
back whitespace-trimmed. -/
def cleanExchange (e : Exchange) : Exchange :=
  { timestamp := e.timestamp, question := jsTrim e.question, answer := jsTrim e.answer }

/-! ## Well-formedness predicates and values for the round-trip -/

def FENCE : Str := ['\n', '-', '-', '-', '\n']

/-- A string that survives the scalar value round-trip: stable under trim,
single-line, and not mistaken for a bracketed array. -/
def goodScalar (s : Str) : Prop :=
  jsTrim s = s ∧ '\n' ∉ s ∧ ¬(s.head? = some '[' ∧ s.getLast? = some ']')

instance : DecidablePred goodScalar := fun s => by unfold goodScalar; infer_instance

/-- A keyword/topic entry that survives the bracketed-list round-trip. -/
def goodItem (s : Str) : Prop := jsTrim s = s ∧ '\n' ∉ s ∧ ',' ∉ s

instance : DecidablePred goodItem := fun s => by unfold goodItem; infer_instance

/-- The frontmatter's interior: lines joined by newlines. -/
def joinLines : List Str → Str
  | [] => []
  | [L] => L
  | L :: L' :: rest => L ++ '\n' :: joinLines (L' :: rest)

/-- A well-formed conversation record: string metadata that is trim-stable,
single-line and unbracketed; non-empty keyword/topic lists of single-line,
comma-free, trim-stable entries; well-formed exchanges. -/
def goodConv (c : Conversation) : Prop :=
  (∃ s, c.id = .str s ∧ goodScalar s) ∧ (∃ s, c.sessionId = .str s ∧ goodScalar s) ∧
  (∃ s, c.created = .str s ∧ goodScalar s) ∧ (∃ s, c.updated = .str s ∧ goodScalar s) ∧
  (∃ l, c.keywords = .arr l ∧ l ≠ [] ∧ ∀ k ∈ l, goodItem k) ∧
  (∃ l, c.topics = .arr l ∧ l ≠ [] ∧ ∀ k ∈ l, goodItem k) ∧
  (∀ e ∈ c.exchanges, goodExchange e)

/-- The conversation used to witness the amended round-trip claim. -/
def rtWitnessConv : Conversation :=
  { id := .str "aaaa0001".toList, sessionId := .str "sess-1".toList,
    created := .str "2026-01-01T00:00:00.000Z".toList,
    updated := .str "2026-01-01T00:01:00.000Z".toList,
    keywords := .arr ["jwt".toList, "authentication".toList],
    topics := .arr ["security".toList],
    exchanges :=
      [{ timestamp := "2026-01-01T00:00:00.000Z".toList,
         question := "How do I use JWT authentication?".toList,
         answer := "Use a signed token and verify on each request.".toList },
       { timestamp := "2026-01-01T00:01:00.000Z".toList,
         question := "And refresh tokens?".toList,
         answer := "Rotate them.".toList }] }

/-- A conversation meeting all of the original claim's stated preconditions
(two exchanges, non-empty keyword and topic lists) whose first answer contains
an embedded `\n---\n` horizontal rule. -/
def rtBadConv : Conversation :=
  { id := .str "x1".toList, sessionId := .str "s".toList,
    created := .str "2026-01-01".toList, updated := .str "2026-01-01".toList,
    keywords := .arr ["k".toList], topics := .arr ["security".toList],
    exchanges :=
      [{ timestamp := "t1".toList, question := "q1".toList,
         answer := ('a' :: '\n' :: '-' :: '-' :: '-' :: '\n' :: ['b']) },
       { timestamp := "t2".toList, question := "q2".toList, answer := "a2".toList }] }

/-- The `recent` entry `updateIndex` builds for the recorded conversation. -/
def recentEntryOf (c : Conversation) (path : Str) : RecentEntry :=
  { date := (jsToString c.created).takeWhile (fun ch => ch != 'T'),
    id := c.id,
    summary := (match c.exchanges.head? with
      | some e => e.question.take 50
      | none => "undefined".toList) ++ "...".toList,
    keywords := c.keywords, path := path }

/-- The index/conversation pair used to witness the `updateIndex` claims. -/
def uiWitnessIdx : Index :=
  { instanceName := .str "i".toList, lastUpdated := .str "t".toList, totalConversations := 1,
    topics := [], keywords := [],
    recent := [{ date := "2026-01-01".toList, id := .str "old1".toList,
                 summary := "s...".toList, keywords := .arr ["k".toList],
                 path := "p.md".toList }] }

/-- An index whose `recent` list repeats one conversation id. -/
def dupIdx : Index :=
  { instanceName := .str "i".toList, lastUpdated := .str "t".toList, totalConversations := 2,
    topics := [], keywords := [],
    recent := [{ date := "2026-01-01".toList, id := .str "x".toList,
                 summary := "s...".toList, keywords := .arr ["k".toList],
                 path := "p.md".toList },
               { date := "2026-01-02".toList, id := .str "x".toList,
                 summary := "s2...".toList, keywords := .arr ["k".toList],
                 path := "q.md".toList }] }

/-- An index in which two conversations match the query keyword equally well. -/
def cxIdx : Index :=
  { instanceName := .str "i".toList, lastUpdated := .str "t".toList, totalConversations := 2,
    topics := [], keywords := [("postgres".toList, [.str "c1".toList, .str "c2".toList])],
    recent := [] }

/-- The keyword list of a topic in the fixed taxonomy (`[]` for unknown
topics). -/
def topicKeywordsOf (t : Str) : List Str := (alistGet? TOPIC_KEYWORDS t).getD []

/-! ## Derived notions for keyword extraction -/

/-- The tokens surviving stop-word filtering, in text order. -/
def nonStopTokens (text : Str) : List Str :=
  (tokenize text).filter (fun t => !decide (t ∈ STOP_WORDS))

/-- Number of occurrences of a token among the surviving tokens. -/
def freqOf (text : Str) (k : Str) : Nat := (nonStopTokens text).count k

/-- The order in which `Object.entries(frequencies)` yields the distinct
surviving tokens: array-index-like tokens first in ascending numeric order,
then the rest in first-encountered order. -/
def enumOrderTokens (text : Str) : List Str :=
  sortAsc strToNat
      ((jsDedup (nonStopTokens text)).filter (fun t => isArrayIndexKey t)) ++
    (jsDedup (nonStopTokens text)).filter (fun t => !isArrayIndexKey t)

/-! ## Concrete scenarios: context formatting, lookup, session continuity -/

/-- A single exchange whose formatted text (209 characters, 53 estimated
tokens) exceeds a 50-token budget on its own. -/
def cx6ex : Exchange :=
  { timestamp := "t".toList,
    question := (List.replicate 200 'x'),
    answer := "y".toList }

def cx6m : CtxMatch := { exchanges := some [cx6ex] }

/-- A filesystem holding a conversation file but no index file: the index
loads as empty, so the conversation is unreachable by id. -/
def c9fs : Fs :=
  ⟨[(joinPath (joinPath "b".toList "i".toList)
      "conversations/2024-01-01/conv-c1.md".toList, "x".toList)]⟩

def c9cfg : MemConfig :=
  { enabled := true, basePath := "b".toList, instanceName := "i".toList,
    maxContextItems := 3, maxContextTokens := 2000 }

def c9st : MemState := { fs := c9fs, indexCache := none }

/-- The question/answer pair used for the session-continuity scenarios. -/
def c7q : Str := "How do I implement JWT authentication?".toList

def c7a : Str := "Use the jsonwebtoken library for JWT tokens.".toList

def c7cfg : MemConfig :=
  { enabled := true, basePath := "b".toList, instanceName := "i".toList,
    maxContextItems := 3, maxContextTokens := 2000 }

def c7st0 : MemState := initializeState "b".toList "i".toList "2024-01-01T09:00:00.000Z".toList

def c7now1 : Str := "2024-01-01T10:00:00.000Z".toList

def c7now2 : Str := "2024-01-01T10:00:05.000Z".toList

def c7day : Str := "2024-01-01".toList

/-- First `recordConversation` call of the session (fresh cache state, so the
index is re-read from disk). -/
def c7call1 (sid : Str) : RecordResult × MemState :=
  recordConversation c7cfg c7st0 c7q c7a (.str sid) false c7now1 c7day "id1".toList

/-- Second call five seconds later with the same session id (cache fresh). -/
def c7call2 (sid : Str) : RecordResult × MemState :=
  recordConversation c7cfg (c7call1 sid).2 c7q c7a (.str sid) true c7now2 c7day "id2".toList

def c7kws : List Str := extractKeywordsFromExchange c7q c7a 10

def c7tps : List Str := extractTopicsFromExchange c7q c7a []

def c7conv1 (sid : Str) : Conversation :=
  createConversation (.str sid) c7q c7a c7kws c7tps c7now1 "id1".toList

def c7p1 : Str := "conversations/2024-01-01/conv-id1.md".toList

/-- The index after the first call (independent of the session id). -/
def c7idx1 : Index :=
  updateIndex (loadIndex c7st0.fs "b".toList "i".toList c7now1) (c7conv1 []) c7p1 c7now1

def c7ic1 : Str := saveIndexContent c7idx1 c7now1

/-- The recent-list entry the saved index parses back to. -/
def c7e1 : RecentEntry :=
  { date := "2024-01-01".toList, id := .str "id1".toList,
    summary := "How do I implement JWT authentication?...".toList,
    keywords := .arr ["jwt".toList, "implement".toList, "authentication".toList,
      "jsonwebtoken".toList, "library".toList, "tokens".toList],
    path := c7p1 }

/-- What the first call's conversation file parses back to. -/
def c7parsed1 (sid : Str) : Conversation :=
  { c7conv1 sid with exchanges := (c7conv1 sid).exchanges.map cleanExchange }

/-- The conversation after the second call appends to the parsed first one. -/
def c7conv2 (sid : Str) : Conversation :=
  appendToConversation (c7parsed1 sid) c7q c7a c7kws c7tps c7now2

/-- The filesystem after the first call. -/
def c7fs1 (sid : Str) : Fs :=
  saveIndex (saveConversation c7st0.fs "b".toList "i".toList c7day (c7conv1 sid)).2
    "b".toList "i".toList
    (updateIndex (getCachedIndex c7cfg c7st0 false c7now1) (c7conv1 sid)
      (saveConversation c7st0.fs "b".toList "i".toList c7day (c7conv1 sid)).1 c7now1) c7now1

/-- The orchestrator state after the first call. -/
def c7st1 (sid : Str) : MemState :=
  { fs := c7fs1 sid,
    indexCache := some (updateIndex (getCachedIndex c7cfg c7st0 false c7now1) (c7conv1 sid)
      (saveConversation c7st0.fs "b".toList "i".toList c7day (c7conv1 sid)).1 c7now1) }

/-- A degenerate exchange: `"???"` and `"!!!"` tokenize to nothing, so the
index entry is written with an empty keyword list. -/
def c7bq : Str := "???".toList

def c7ba : Str := "!!!".toList

def c7bcall1 : RecordResult × MemState :=
  recordConversation c7cfg c7st0 c7bq c7ba (.str "s1".toList) false c7now1 c7day
    "id1".toList

def c7bcall2 : RecordResult × MemState :=
  recordConversation c7cfg c7bcall1.2 c7bq c7ba (.str "s1".toList) true c7now2 c7day
    "id2".toList

lemma isPrefixOf_length {l s : Str} (h : l.isPrefixOf s = true) : l.length ≤ s.length := by
  induction l generalizing s with
  | nil => simp
  | cons a as ih =>
    cases s with
    | nil => simp [List.isPrefixOf] at h
    | cons b bs =>
      simp only [List.isPrefixOf, Bool.and_eq_true] at h
      simpa using Nat.succ_le_succ (ih h.2)

lemma dropLit?_length {lit s s' : Str} (h : dropLit? lit s = some s') :
    s'.length + lit.length = s.length := by
  unfold dropLit? at h
  by_cases hp : lit.isPrefixOf s = true
  · simp only [hp, if_true, Option.some.injEq] at h
    subst h
    have := isPrefixOf_length hp
    simp [List.length_drop]
    omega
  · simp [hp] at h

lemma splitAtMarker_snd_length {pat s : Str} {p : Str × Str}
    (h : splitAtMarker pat s = some p) : p.2.length ≤ s.length := by
  induction s generalizing p with
  | nil =>
    unfold splitAtMarker at h
    by_cases hp : pat.isPrefixOf ([] : Str) = true
    · simp only [hp, if_true, Option.some.injEq] at h
      subst h; simp
    · simp [hp] at h
  | cons c t ih =>
    unfold splitAtMarker at h
    by_cases hp : pat.isPrefixOf (c :: t) = true
    · simp only [hp, if_true, Option.some.injEq] at h
      subst h
      simpa [List.length_drop] using Nat.sub_le (c :: t).length pat.length
    · simp only [hp, if_false, Bool.false_eq_true, Option.map_eq_some'] at h
      obtain ⟨q, hq, hqp⟩ := h
      have := ih hq
      subst hqp
      calc q.2.length ≤ t.length := this
        _ ≤ (c :: t).length := by simp

lemma answerSplit_snd_length (s : Str) : (answerSplit s).2.length ≤ s.length := by
  induction s with
  | nil => simp [answerSplit]
  | cons c t ih =>
    unfold answerSplit
    by_cases hp : EXCHANGE_SEP.isPrefixOf (c :: t) = true
    · simp [hp]
    · simp only [hp, if_false, Bool.false_eq_true]
      calc (answerSplit t).2.length ≤ t.length := ih
        _ ≤ (c :: t).length := by simp

lemma matchExchangeAt_rest_length {s : Str} {r : Exchange × Str}
    (h : matchExchangeAt s = some r) : r.2.length < s.length := by
  unfold matchExchangeAt at h
  cases h1 : dropLit? QUESTION_LIT s with
  | none => rw [h1] at h; exact absurd h (by simp)
  | some s1 =>
    rw [h1] at h
    by_cases hd : (s1.takeWhile Char.isDigit).isEmpty = true
    · simp [hd] at h
    · simp only [hd, Bool.false_eq_true, if_false] at h
      cases h2 : dropLit? TIMESTAMP_LIT (s1.dropWhile Char.isDigit) with
      | none => rw [h2] at h; exact absurd h (by simp)
      | some s3 =>
        rw [h2] at h
        by_cases hts : (s3.takeWhile notNL).isEmpty = true
        · simp [hts] at h
        · simp only [hts, Bool.false_eq_true, if_false] at h
          cases h3 : dropLit? "\n\n".toList (s3.dropWhile notNL) with
          | none => rw [h3] at h; exact absurd h (by simp)
          | some s4 =>
            rw [h3] at h
            simp only [] at h
            cases h4 : splitAtMarker ANSWER_MARK s4 with
            | none => rw [h4] at h; exact absurd h (by simp)
            | some qs =>
              rw [h4] at h
              simp only [Option.some.injEq] at h
              have hr2 : r.2 = (answerSplit qs.2).2 := by rw [← h]
              have l5 : (answerSplit qs.2).2.length ≤ qs.2.length := answerSplit_snd_length _
              have l4 : qs.2.length ≤ s4.length := splitAtMarker_snd_length h4
              have l3 : s4.length + 2 = (s3.dropWhile notNL).length := by
                simpa using dropLit?_length h3
              have l3b : (s3.dropWhile notNL).length ≤ s3.length :=
                ((List.dropWhile_sublist _)).length_le
              have l2 : s3.length + 16 = (s1.dropWhile Char.isDigit).length := by
                simpa using dropLit?_length h2
              have l2b : (s1.dropWhile Char.isDigit).length ≤ s1.length :=
                ((List.dropWhile_sublist _)).length_le
              have l1 : s1.length + 12 = s.length := by
                simpa using dropLit?_length h1
              rw [hr2]
              omega

lemma findExchange_rest_length {s : Str} {r : Exchange × Str}
    (h : findExchange s = some r) : r.2.length < s.length := by
  induction s with
  | nil => simp [findExchange] at h
  | cons c t ih =>
    unfold findExchange at h
    cases hm : matchExchangeAt (c :: t) with
    | some r' =>
      rw [hm] at h
      simp only [Option.some.injEq] at h
      subst h
      exact matchExchangeAt_rest_length hm
    | none =>
      rw [hm] at h
      have := ih h
      calc r.2.length < t.length := this
        _ < (c :: t).length := by simp

lemma parseExchangesGo_fuel :
    ∀ (fuel fuel' : Nat) (s : Str), s.length < fuel → s.length < fuel' →
      parseExchangesGo fuel s = parseExchangesGo fuel' s := by
  intro fuel
  induction fuel with
  | zero => intro fuel' s h h'; omega
  | succ f ih =>
    intro fuel' s h h'
    cases fuel' with
    | zero => omega
    | succ f' =>
      simp only [parseExchangesGo]
      cases hf : findExchange s with
      | none => rfl
      | some r =>
        have := findExchange_rest_length hf
        exact congrArg (fun l => r.1 :: l) (ih f' r.2 (by omega) (by omega))

/-- The loop unfolds one leftmost match at a time. -/
lemma parseExchangesFrom_eq (s : Str) :
    parseExchangesFrom s =
      match findExchange s with
      | none => []
      | some r => r.1 :: parseExchangesFrom r.2 := by
  unfold parseExchangesFrom
  simp only [parseExchangesGo]
  cases hf : findExchange s with
  | none => rfl
  | some r =>
    have := findExchange_rest_length hf
    exact congrArg (fun l => r.1 :: l)
      (parseExchangesGo_fuel s.length (r.2.length + 1) r.2 (by omega) (by omega))

/-! ## Round-trip lemmas for the conversation encoding -/

lemma isPrefixOf_append_self (l t : Str) : l.isPrefixOf (l ++ t) = true := by
  induction l with
  | nil => simp [List.isPrefixOf]
  | cons a as ih => simp [List.isPrefixOf, ih]

lemma dropLit?_append (lit t : Str) : dropLit? lit (lit ++ t) = some t := by
  simp [dropLit?, isPrefixOf_append_self, List.drop_left]

lemma isPrefixOf_cons_false {pat : Str} {c : Char} {t : Str} {p0 : Char}
    (hp : pat.head? = some p0) (hne : c ≠ p0) : pat.isPrefixOf (c :: t) = false := by
  cases pat with
  | nil => simp at hp
  | cons q qs =>
    simp only [List.head?_cons, Option.some.injEq] at hp
    subst hp
    simp [List.isPrefixOf, BEq.beq]
    intro h
    exact absurd h.symm hne

lemma splitAtMarker_here {pat : Str} (r : Str) (h : pat ≠ []) :
    splitAtMarker pat (pat ++ r) = some ([], r) := by
  cases pat with
  | nil => exact absurd rfl h
  | cons q qs =>
    rw [List.cons_append]
    have hp : (q :: qs).isPrefixOf (q :: (qs ++ r)) = true := by
      rw [← List.cons_append]; exact isPrefixOf_append_self _ _
    conv_lhs => unfold splitAtMarker
    rw [hp]
    simp [List.drop_left]

lemma splitAtMarker_not_here {pat : Str} {c : Char} {t : Str}
    (h : pat.isPrefixOf (c :: t) = false) :
    splitAtMarker pat (c :: t) = (splitAtMarker pat t).map (fun p => (c :: p.1, p.2)) := by
  conv_lhs => unfold splitAtMarker
  rw [h]
  simp

lemma splitAtMarker_skip_noNL {pat : Str} (w rest : Str) (hp : pat.head? = some '\n')
    (hw : '\n' ∉ w) :
    splitAtMarker pat (w ++ rest) =
      (splitAtMarker pat rest).map (fun p => (w ++ p.1, p.2)) := by
  induction w with
  | nil =>
    simp only [List.nil_append]
    cases splitAtMarker pat rest <;> simp
  | cons c cs ih =>
    have hc : c ≠ '\n' := fun hcc => hw (by simp [hcc])
    rw [List.cons_append, splitAtMarker_not_here (isPrefixOf_cons_false hp hc)]
    rw [ih (fun hm => hw (List.mem_cons_of_mem c hm))]
    cases splitAtMarker pat rest <;> simp

lemma answerSplit_skip_noNL (w rest : Str) (hw : '\n' ∉ w) :
    answerSplit (w ++ rest) = (w ++ (answerSplit rest).1, (answerSplit rest).2) := by
  induction w with
  | nil => simp
  | cons c cs ih =>
    have hc : c ≠ '\n' := fun hcc => hw (by simp [hcc])
    have hpre : EXCHANGE_SEP.isPrefixOf (c :: (cs ++ rest)) = false :=
      isPrefixOf_cons_false (by rw [EXCHANGE_SEP]; rfl) hc
    rw [List.cons_append]
    conv_lhs => unfold answerSplit
    rw [hpre]
    simp only [Bool.false_eq_true, if_false]
    rw [ih (fun hm => hw (List.mem_cons_of_mem c hm))]
    simp

lemma takeWhile_all_append {p : Char → Bool} (w : Str) (hw : ∀ c ∈ w, p c = true)
    (c0 : Char) (hc : p c0 = false) (rest : Str) :
    (w ++ c0 :: rest).takeWhile p = w ∧ (w ++ c0 :: rest).dropWhile p = c0 :: rest := by
  induction w with
  | nil => simp [List.takeWhile, List.dropWhile, hc]
  | cons c cs ih =>
    have hcp : p c = true := hw c (by simp)
    have ih2 := ih (fun x hx => hw x (List.mem_cons_of_mem c hx))
    simp [List.takeWhile, List.dropWhile, hcp, ih2.1, ih2.2]

lemma dropWhile_all_append {p : Char → Bool} (u v : Str) (hu : ∀ c ∈ u, p c = true) :
    (u ++ v).dropWhile p = v.dropWhile p := by
  induction u with
  | nil => simp
  | cons c cs ih =>
    simp [List.dropWhile, hu c (by simp), ih (fun x hx => hu x (List.mem_cons_of_mem c hx))]

lemma dropWhile_all_nil {p : Char → Bool} (u : Str) (hu : ∀ c ∈ u, p c = true) :
    u.dropWhile p = [] := by
  simpa using dropWhile_all_append u [] hu

lemma jsTrim_cons_ws {c : Char} (hc : isJsWS c = true) (s : Str) :
    jsTrim (c :: s) = jsTrim s := by
  simp [jsTrim, List.dropWhile, hc]

lemma jsTrim_append_ws (a b : Str) (hb : ∀ c ∈ b, isJsWS c = true) :
    jsTrim (a ++ b) = jsTrim a := by
  induction a with
  | nil =>
    simp only [List.nil_append]
    have h1 : b.dropWhile isJsWS = [] := dropWhile_all_nil b hb
    simp [jsTrim, h1]
  | cons c cs ih =>
    by_cases hc : isJsWS c = true
    · rw [List.cons_append, jsTrim_cons_ws hc, jsTrim_cons_ws hc]
      exact ih
    · have hc' : isJsWS c = false := by revert hc; cases isJsWS c <;> simp
      have hrev : ∀ (x : Str), jsTrim (c :: x) = ((x.reverse ++ [c]).dropWhile isJsWS).reverse := by
        intro x
        simp [jsTrim, List.dropWhile, hc']
      rw [List.cons_append, hrev, hrev]
      have : (cs ++ b).reverse ++ [c] = b.reverse ++ (cs.reverse ++ [c]) := by
        simp [List.reverse_append, List.append_assoc]
      rw [this, dropWhile_all_append b.reverse (cs.reverse ++ [c])
        (fun x hx => hb x (by simpa using hx))]

lemma digitChar_isDigit {m : Nat} (h : m < 10) : (Nat.digitChar m).isDigit = true := by
  interval_cases m <;> decide

lemma toDigitsCore_digits :
    ∀ (fuel n : Nat) (ds : Str), (∀ c ∈ ds, c.isDigit = true) →
      ∀ c ∈ Nat.toDigitsCore 10 fuel n ds, c.isDigit = true := by
  intro fuel
  induction fuel with
  | zero => intro n ds h; simpa [Nat.toDigitsCore] using h
  | succ f ih =>
    intro n ds h c hc
    rw [Nat.toDigitsCore] at hc
    by_cases h10 : n / 10 = 0
    · simp only [h10, if_true] at hc
      rcases List.mem_cons.mp hc with hh | hh
      · subst hh; exact digitChar_isDigit (Nat.mod_lt n (by omega))
      · exact h c hh
    · simp only [h10, if_false] at hc
      refine ih (n / 10) ((n % 10).digitChar :: ds) ?_ c hc
      intro x hx
      rcases List.mem_cons.mp hx with hh | hh
      · subst hh; exact digitChar_isDigit (Nat.mod_lt n (by omega))
      · exact h x hh

lemma toDigitsCore_ne_nil :
    ∀ (fuel n : Nat) (ds : Str), ds ≠ [] → Nat.toDigitsCore 10 fuel n ds ≠ [] := by
  intro fuel
  induction fuel with
  | zero => intro n ds h; simpa [Nat.toDigitsCore] using h
  | succ f ih =>
    intro n ds h
    rw [Nat.toDigitsCore]
    by_cases h10 : n / 10 = 0
    · simp [h10]
    · simp only [h10, if_false]
      exact ih (n / 10) _ (by simp)

lemma toDigits_all_digit (n : Nat) : ∀ c ∈ Nat.toDigits 10 n, c.isDigit = true :=
  toDigitsCore_digits (n + 1) n [] (by simp)

lemma toDigits_ne_nil (n : Nat) : Nat.toDigits 10 n ≠ [] := by
  rw [Nat.toDigits, Nat.toDigitsCore]
  by_cases h10 : n / 10 = 0
  · simp [h10]
  · simp only [h10, if_false]
    exact toDigitsCore_ne_nil n (n / 10) _ (by simp)

lemma answerSplit_last (a : Str) (ha : '\n' ∉ a) :
    answerSplit (a ++ ['\n', '\n']) = (a ++ ['\n', '\n'], []) := by
  rw [answerSplit_skip_noNL a ['\n', '\n'] ha]
  have h2 : answerSplit ['\n', '\n'] = (['\n', '\n'], []) := by decide
  rw [h2]

lemma answerSplit_sep (a more : Str) (ha : '\n' ∉ a) :
    answerSplit (a ++ ('\n' :: '\n' :: '-' :: '-' :: '-' :: '\n' :: '\n' :: more)) =
      (a ++ ['\n'], '\n' :: '-' :: '-' :: '-' :: '\n' :: '\n' :: more) := by
  rw [answerSplit_skip_noNL a _ ha]
  have h1 : EXCHANGE_SEP.isPrefixOf
      ('\n' :: '\n' :: '-' :: '-' :: '-' :: '\n' :: '\n' :: more) = false := by
    rw [EXCHANGE_SEP]
    simp [List.isPrefixOf]
  have h2 : EXCHANGE_SEP.isPrefixOf ('\n' :: '-' :: '-' :: '-' :: '\n' :: '\n' :: more) = true := by
    rw [EXCHANGE_SEP]
    simp [List.isPrefixOf]
  conv_lhs => rw [answerSplit, h1]
  simp only [Bool.false_eq_true, if_false]
  conv_lhs => rw [answerSplit, h2]
  simp

/-- The exchange regex matches at the start of a generated section, capturing
the timestamp, question and the lazily-delimited answer run. -/
lemma matchExchangeAt_section (n : Nat) (e : Exchange) (t : Str) (hg : goodExchange e) :
    matchExchangeAt (exchangeSection n e ++ t) =
      some ({ timestamp := e.timestamp, question := jsTrim e.question,
              answer := jsTrim (answerSplit (e.answer ++ ('\n' :: '\n' :: t))).1 },
            (answerSplit (e.answer ++ ('\n' :: '\n' :: t))).2) := by
  obtain ⟨hts0, hts, hq, ha⟩ := hg
  have hsec : exchangeSection n e ++ t =
      QUESTION_LIT ++ (Nat.toDigits 10 n ++ ('\n' :: ("**Timestamp:** ".toList ++
        (e.timestamp ++ ('\n' :: '\n' ::
          (e.question ++ (ANSWER_MARK ++ (e.answer ++ ('\n' :: '\n' :: t))))))))) := by
    simp [exchangeSection, TIMESTAMP_LIT, List.append_assoc]
  rw [hsec]
  conv_lhs => unfold matchExchangeAt
  rw [dropLit?_append]
  simp only []
  have hdig := takeWhile_all_append (Nat.toDigits 10 n) (toDigits_all_digit n) '\n'
    (by decide)
    ("**Timestamp:** ".toList ++ (e.timestamp ++ ('\n' :: '\n' ::
      (e.question ++ (ANSWER_MARK ++ (e.answer ++ ('\n' :: '\n' :: t)))))))
  rw [hdig.1, hdig.2]
  have hne : ((Nat.toDigits 10 n).isEmpty) = false :=
    List.isEmpty_eq_false.mpr (toDigits_ne_nil n)
  rw [hne]
  simp only [Bool.false_eq_true, if_false]
  have hT : ('\n' :: ("**Timestamp:** ".toList ++ (e.timestamp ++ ('\n' :: '\n' ::
      (e.question ++ (ANSWER_MARK ++ (e.answer ++ ('\n' :: '\n' :: t)))))))) =
      TIMESTAMP_LIT ++ (e.timestamp ++ ('\n' :: '\n' ::
        (e.question ++ (ANSWER_MARK ++ (e.answer ++ ('\n' :: '\n' :: t)))))) := rfl
  rw [hT, dropLit?_append]
  simp only []
  have htsw := takeWhile_all_append (p := notNL) e.timestamp
    (fun c hc => by
      have hcne : c ≠ '\n' := fun hcc => hts (hcc ▸ hc)
      simp [notNL, hcne])
    '\n' (by decide)
    ('\n' :: (e.question ++ (ANSWER_MARK ++ (e.answer ++ ('\n' :: '\n' :: t)))))
  rw [htsw.1, htsw.2]
  rw [List.isEmpty_eq_false.mpr hts0]
  simp only [Bool.false_eq_true, if_false]
  have hNN : ('\n' :: '\n' :: (e.question ++ (ANSWER_MARK ++ (e.answer ++ ('\n' :: '\n' :: t))))) =
      "\n\n".toList ++ (e.question ++ (ANSWER_MARK ++ (e.answer ++ ('\n' :: '\n' :: t)))) := rfl
  rw [hNN, dropLit?_append]
  simp only []
  rw [splitAtMarker_skip_noNL e.question _ (by rw [ANSWER_MARK]; rfl) hq]
  rw [splitAtMarker_here _ (by rw [ANSWER_MARK]; simp)]
  simp

lemma matchExchangeAt_cons_ne {c : Char} (t : Str) (h : c ≠ '#') :
    matchExchangeAt (c :: t) = none := by
  have hd : dropLit? QUESTION_LIT (c :: t) = none := by
    unfold dropLit?
    rw [isPrefixOf_cons_false (by rw [QUESTION_LIT]; rfl) h]
    simp
  conv_lhs => unfold matchExchangeAt
  rw [hd]

lemma findExchange_of_matchAt {s : Str} {r : Exchange × Str}
    (h : matchExchangeAt s = some r) : findExchange s = some r := by
  cases s with
  | nil =>
    have hnone : matchExchangeAt ([] : Str) = none := by decide
    rw [hnone] at h
    exact Option.noConfusion h
  | cons c t =>
    conv_lhs => unfold findExchange
    rw [h]

lemma findExchange_skip {c : Char} (t : Str) (h : c ≠ '#') :
    findExchange (c :: t) = findExchange t := by
  conv_lhs => unfold findExchange
  rw [matchExchangeAt_cons_ne t h]

lemma parseExchangesFrom_congr {s s' : Str} (h : findExchange s = findExchange s') :
    parseExchangesFrom s = parseExchangesFrom s' := by
  rw [parseExchangesFrom_eq s, parseExchangesFrom_eq s', h]

lemma parseExchangesFrom_body (n : Nat) (es : List Exchange)
    (h : ∀ e ∈ es, goodExchange e) :
    parseExchangesFrom (conversationBody n es) = es.map cleanExchange := by
  induction es generalizing n with
  | nil =>
    have hn : parseExchangesFrom ([] : Str) = [] := by decide
    simpa [show conversationBody n [] = [] from rfl] using hn
  | cons e rest ih =>
    have hge : goodExchange e := h e (by simp)
    cases rest with
    | nil =>
      rw [conversationBody, parseExchangesFrom_eq]
      rw [← List.append_nil (exchangeSection n e)]
      rw [findExchange_of_matchAt (matchExchangeAt_section n e [] hge)]
      simp only []
      rw [answerSplit_last e.answer hge.2.2.2]
      have hpn : parseExchangesFrom ([] : Str) = [] := by decide
      have hta : jsTrim (e.answer ++ ['\n', '\n']) = jsTrim e.answer :=
        jsTrim_append_ws e.answer ['\n', '\n'] (by decide)
      simp [cleanExchange, hta, hpn]
    | cons e2 rest' =>
      rw [conversationBody]
      have hsh : exchangeSection n e ++ "---\n\n".toList ++
          conversationBody (n + 1) (e2 :: rest') =
          exchangeSection n e ++
            ('-' :: '-' :: '-' :: '\n' :: '\n' :: conversationBody (n + 1) (e2 :: rest')) := by
        simp [List.append_assoc]
      rw [hsh, parseExchangesFrom_eq]
      rw [findExchange_of_matchAt (matchExchangeAt_section n e _ hge)]
      simp only []
      rw [answerSplit_sep e.answer (conversationBody (n + 1) (e2 :: rest')) hge.2.2.2]
      simp only []
      have hskip : parseExchangesFrom
          ('\n' :: '-' :: '-' :: '-' :: '\n' :: '\n' :: conversationBody (n + 1) (e2 :: rest')) =
          parseExchangesFrom (conversationBody (n + 1) (e2 :: rest')) := by
        apply parseExchangesFrom_congr
        rw [findExchange_skip _ (by decide), findExchange_skip _ (by decide),
            findExchange_skip _ (by decide), findExchange_skip _ (by decide),
            findExchange_skip _ (by decide), findExchange_skip _ (by decide)]
      rw [hskip, ih (n + 1) (fun x hx => h x (List.mem_cons_of_mem e hx))]
      have hta : jsTrim (e.answer ++ ['\n']) = jsTrim e.answer :=
        jsTrim_append_ws e.answer ['\n'] (by decide)
      simp [cleanExchange, hta]

lemma fence_not_prefix_nl {c : Char} (hc : c ≠ '-') (Y : Str) :
    FENCE.isPrefixOf ('\n' :: c :: Y) = false := by
  simp only [FENCE, List.isPrefixOf, Bool.and_eq_false_iff]
  right
  left
  simp [BEq.beq]
  exact fun h => absurd h.symm hc

lemma splitOnChar_append_noSep {sep : Char} (L : Str) (hL : sep ∉ L) (rest : Str) :
    splitOnChar sep (L ++ sep :: rest) = L :: splitOnChar sep rest := by
  induction L with
  | nil => simp [splitOnChar]
  | cons c cs ih =>
    have hc : c ≠ sep := fun hcc => hL (by simp [hcc])
    rw [List.cons_append]
    conv_lhs => unfold splitOnChar
    rw [ih (fun hm => hL (List.mem_cons_of_mem c hm))]
    simp [hc]

lemma splitOnChar_noSep {sep : Char} (L : Str) (hL : sep ∉ L) :
    splitOnChar sep L = [L] := by
  induction L with
  | nil => rfl
  | cons c cs ih =>
    have hc : c ≠ sep := fun hcc => hL (by simp [hcc])
    conv_lhs => unfold splitOnChar
    rw [ih (fun hm => hL (List.mem_cons_of_mem c hm))]
    simp [hc]

lemma colonIdx?_append {w : Str} (hw : ':' ∉ w) (rest : Str) :
    colonIdx? (w ++ ':' :: rest) = some w.length := by
  induction w with
  | nil => simp [colonIdx?]
  | cons c cs ih =>
    have hc : c ≠ ':' := fun hcc => hw (by simp [hcc])
    rw [List.cons_append]
    conv_lhs => unfold colonIdx?
    rw [ih (fun hm => hw (List.mem_cons_of_mem c hm))]
    simp [hc]

lemma drop_length_succ_append (l : Str) (x : Char) (y : Str) :
    (l ++ x :: y).drop (l.length + 1) = y := by
  have h1 : l ++ x :: y = (l ++ [x]) ++ y := by simp
  have h2 : l.length + 1 = (l ++ [x]).length := by simp
  rw [h1, h2, List.drop_left]

lemma parseFrontmatterLine_scalar (key v : Str) (hk : ':' ∉ key) (hk0 : key ≠ [])
    (hkt : jsTrim key = key) (hv : goodScalar v) :
    parseFrontmatterLine (key ++ ':' :: ' ' :: v) = some (key, .str v) := by
  unfold parseFrontmatterLine
  rw [colonIdx?_append hk]
  simp only []
  rw [if_neg (fun h => hk0 (List.length_eq_zero.mp h))]
  rw [List.take_left, drop_length_succ_append]
  rw [jsTrim_cons_ws (by decide), hv.1, hkt]
  rw [if_neg hv.2.2]

lemma splitOnChar_ne_nil {sep : Char} (s : Str) : splitOnChar sep s ≠ [] := by
  cases s with
  | nil => simp [splitOnChar]
  | cons c t =>
    unfold splitOnChar
    by_cases hc : c = sep
    · simp [hc]
    · simp only [hc, if_false]
      cases splitOnChar sep t <;> simp

lemma intercalate_cons_cons (sep : Str) (a : Str) (b : Str) (rest : List Str) :
    List.intercalate sep (a :: b :: rest) = a ++ sep ++ List.intercalate sep (b :: rest) := by
  simp [List.intercalate, List.intersperse]

lemma interSplit (items : List Str) (hits : ∀ k ∈ items, goodItem k) :
    (splitOnChar ',' (List.intercalate ", ".toList items)).map jsTrim =
      if items = [] then [[]] else items := by
  induction items with
  | nil => simp [List.intercalate, splitOnChar, jsTrim]
  | cons a rest ih =>
    have ha := hits a (by simp)
    cases rest with
    | nil =>
      have h1 : List.intercalate ", ".toList [a] = a := by
        simp [List.intercalate, List.intersperse]
      rw [h1, splitOnChar_noSep a ha.2.2]
      simp [ha.1]
    | cons b rest' =>
      rw [intercalate_cons_cons]
      have hsh : a ++ ", ".toList ++ List.intercalate ", ".toList (b :: rest') =
          a ++ ',' :: (' ' :: List.intercalate ", ".toList (b :: rest')) := by
        simp [List.append_assoc]
      rw [hsh, splitOnChar_append_noSep a ha.2.2]
      have hrec := ih (fun k hk => hits k (List.mem_cons_of_mem a hk))
      rw [if_neg (by simp : ¬(b :: rest' = []))] at hrec
      have hstep : splitOnChar ',' (' ' :: List.intercalate ", ".toList (b :: rest')) =
          (match splitOnChar ',' (List.intercalate ", ".toList (b :: rest')) with
           | [] => [[' ']]
           | p :: ps => (' ' :: p) :: ps) := by
        conv_lhs => unfold splitOnChar
        rw [if_neg (by decide : ¬(' ' = ','))]
      rw [hstep]
      cases hsp : splitOnChar ',' (List.intercalate ", ".toList (b :: rest')) with
      | nil => exact absurd hsp (splitOnChar_ne_nil _)
      | cons p ps =>
        rw [hsp] at hrec
        simp only [List.map_cons, List.cons.injEq] at hrec
        simp only [List.map_cons]
        rw [jsTrim_cons_ws (by decide)]
        simp [hrec.1, hrec.2, ha.1]

lemma jsTrim_bracketed (m : Str) : jsTrim ('[' :: (m ++ [']'])) = '[' :: (m ++ [']']) := by
  unfold jsTrim
  have h1 : List.dropWhile isJsWS ('[' :: (m ++ [']'])) = '[' :: (m ++ [']']) := by
    rw [List.dropWhile_cons, show isJsWS '[' = false from by decide]
    simp
  have h2 : List.dropWhile isJsWS (']' :: (m.reverse ++ ['['])) = ']' :: (m.reverse ++ ['[']) := by
    rw [List.dropWhile_cons, show isJsWS ']' = false from by decide]
    simp
  rw [h1, show ('[' :: (m ++ [']'])).reverse = ']' :: (m.reverse ++ ['[']) from by simp, h2]
  simp

lemma parseFrontmatterLine_array (key : Str) (items : List Str) (hk : ':' ∉ key)
    (hk0 : key ≠ []) (hkt : jsTrim key = key) (hne : items ≠ [])
    (hits : ∀ k ∈ items, goodItem k) :
    parseFrontmatterLine
        (key ++ ':' :: ' ' :: ('[' :: (List.intercalate ", ".toList items ++ [']']))) =
      some (key, .arr items) := by
  unfold parseFrontmatterLine
  rw [colonIdx?_append hk]
  simp only []
  rw [if_neg (fun h => hk0 (List.length_eq_zero.mp h))]
  rw [List.take_left, drop_length_succ_append]
  rw [jsTrim_cons_ws (by decide), jsTrim_bracketed, hkt]
  have hlast : ('[' :: (List.intercalate ", ".toList items ++ [']'])).getLast? = some ']' := by
    rw [← List.cons_append]
    exact List.getLast?_concat _
  rw [if_pos ⟨rfl, hlast⟩]
  simp only [List.drop_succ_cons, List.drop_zero, List.dropLast_concat]
  rw [show (splitOnChar ',' (List.intercalate ", ".toList items)).map jsTrim =
      if items = [] then [[]] else items from interSplit items hits]
  rw [if_neg hne]

lemma splitAtMarker_fence_lines (Ls : List Str) (body : Str) (hne : Ls ≠ [])
    (h : ∀ L ∈ Ls, '\n' ∉ L ∧ (∃ c cs, L = c :: cs ∧ c ≠ '-')) :
    splitAtMarker FENCE (joinLines Ls ++ ('\n' :: '-' :: '-' :: '-' :: '\n' :: body)) =
      some (joinLines Ls, body) := by
  induction Ls with
  | nil => exact absurd rfl hne
  | cons L rest ih =>
    obtain ⟨hLnl, c, cs, hLc, hcne⟩ := h L (by simp)
    cases rest with
    | nil =>
      rw [joinLines, splitAtMarker_skip_noNL L _ (by rw [FENCE]; rfl) hLnl]
      rw [show ('\n' :: '-' :: '-' :: '-' :: '\n' :: body : Str) = FENCE ++ body from rfl]
      rw [splitAtMarker_here body (by rw [FENCE]; simp)]
      simp
    | cons L2 rest' =>
      obtain ⟨hL2nl, c2, cs2, hL2c, hc2ne⟩ := h L2 (by simp)
      rw [joinLines, List.append_assoc, splitAtMarker_skip_noNL L _ (by rw [FENCE]; rfl) hLnl]
      rw [List.cons_append]
      have hstep : splitAtMarker FENCE
          ('\n' :: (joinLines (L2 :: rest') ++ ('\n' :: '-' :: '-' :: '-' :: '\n' :: body))) =
          (splitAtMarker FENCE
            (joinLines (L2 :: rest') ++ ('\n' :: '-' :: '-' :: '-' :: '\n' :: body))).map
            (fun p => ('\n' :: p.1, p.2)) := by
        apply splitAtMarker_not_here
        obtain ⟨Y, hY⟩ : ∃ Y, joinLines (L2 :: rest') ++
            ('\n' :: '-' :: '-' :: '-' :: '\n' :: body) = c2 :: Y := by
          cases rest' with
          | nil =>
            refine ⟨cs2 ++ ('\n' :: '-' :: '-' :: '-' :: '\n' :: body), ?_⟩
            simp [joinLines, hL2c]
          | cons L3 rest'' =>
            refine ⟨cs2 ++ ('\n' :: joinLines (L3 :: rest'') ++
              ('\n' :: '-' :: '-' :: '-' :: '\n' :: body)), ?_⟩
            simp [joinLines, hL2c, List.append_assoc]
        rw [hY]
        exact fence_not_prefix_nl hc2ne Y
      rw [hstep, ih (by simp) (fun L hL => h L (List.mem_cons_of_mem _ hL))]
      simp

lemma splitOnChar_joinLines (Ls : List Str) (hne : Ls ≠ [])
    (h : ∀ L ∈ Ls, '\n' ∉ L) : splitOnChar '\n' (joinLines Ls) = Ls := by
  induction Ls with
  | nil => exact absurd rfl hne
  | cons L rest ih =>
    cases rest with
    | nil => rw [joinLines]; exact splitOnChar_noSep L (h L (by simp))
    | cons L2 rest' =>
      rw [joinLines, splitOnChar_append_noSep L (h L (by simp))]
      rw [ih (by simp) (fun x hx => h x (List.mem_cons_of_mem _ hx))]

lemma noNL_intercalate (items : List Str) (h : ∀ k ∈ items, '\n' ∉ k) :
    '\n' ∉ List.intercalate ", ".toList items := by
  induction items with
  | nil => simp [List.intercalate, List.intersperse]
  | cons a rest ih =>
    cases rest with
    | nil =>
      have h1 : List.intercalate ", ".toList [a] = a := by
        simp [List.intercalate, List.intersperse]
      rw [h1]
      exact h a (by simp)
    | cons b rest' =>
      rw [intercalate_cons_cons]
      intro hm
      rcases List.mem_append.mp hm with hm1 | hm2
      · rcases List.mem_append.mp hm1 with hm3 | hm4
        · exact h a (by simp) hm3
        · revert hm4; decide
      · exact ih (fun k hk => h k (List.mem_cons_of_mem _ hk)) hm2

lemma parseMarkdownFrontmatter_conv
    (i sid cr up : Str) (ks ts : List Str) (body : Str)
    (hi : goodScalar i) (hs : goodScalar sid) (hc : goodScalar cr) (hu : goodScalar up)
    (hk : ks ≠ []) (hk2 : ∀ k ∈ ks, goodItem k) (ht : ts ≠ []) (ht2 : ∀ k ∈ ts, goodItem k) :
    parseMarkdownFrontmatter (generateFrontmatter
      [("id".toList, .str i), ("session_id".toList, .str sid), ("created".toList, .str cr),
       ("updated".toList, .str up), ("keywords".toList, .arr ks), ("topics".toList, .arr ts)]
      ++ body) =
    ([("id".toList, .str i), ("session_id".toList, .str sid), ("created".toList, .str cr),
      ("updated".toList, .str up), ("keywords".toList, .arr ks), ("topics".toList, .arr ts)],
     body) := by
  have hkNL : '\n' ∉ '[' :: (List.intercalate ", ".toList ks ++ [']']) := by
    intro hm
    rcases List.mem_cons.mp hm with hm1 | hm2
    · exact absurd hm1.symm (by decide)
    · rcases List.mem_append.mp hm2 with hm3 | hm4
      · exact noNL_intercalate ks (fun k hkk => (hk2 k hkk).2.1) hm3
      · revert hm4; decide
  have htNL : '\n' ∉ '[' :: (List.intercalate ", ".toList ts ++ [']']) := by
    intro hm
    rcases List.mem_cons.mp hm with hm1 | hm2
    · exact absurd hm1.symm (by decide)
    · rcases List.mem_append.mp hm2 with hm3 | hm4
      · exact noNL_intercalate ts (fun k hkk => (ht2 k hkk).2.1) hm3
      · revert hm4; decide
  have hlines : ∀ L ∈ [("id".toList ++ ':' :: ' ' :: i : Str),
      "session_id".toList ++ ':' :: ' ' :: sid,
      "created".toList ++ ':' :: ' ' :: cr,
      "updated".toList ++ ':' :: ' ' :: up,
      "keywords".toList ++ ':' :: ' ' :: ('[' :: (List.intercalate ", ".toList ks ++ [']'])),
      "topics".toList ++ ':' :: ' ' :: ('[' :: (List.intercalate ", ".toList ts ++ [']']))],
      '\n' ∉ L ∧ (∃ c cs, L = c :: cs ∧ c ≠ '-') := by
    intro L hL
    have hgen : ∀ (key : Str) (v : Str), key = "id".toList ∨ key = "session_id".toList ∨
        key = "created".toList ∨ key = "updated".toList → '\n' ∉ v →
        '\n' ∉ key ++ ':' :: ' ' :: v := by
      intro key v hkey hv hm
      rcases List.mem_append.mp hm with hm1 | hm2
      · rcases hkey with h' | h' | h' | h' <;> (subst h'; revert hm1; decide)
      · rcases List.mem_cons.mp hm2 with hm3 | hm4
        · exact absurd hm3.symm (by decide)
        · rcases List.mem_cons.mp hm4 with hm5 | hm6
          · exact absurd hm5.symm (by decide)
          · exact hv hm6
    have hgen2 : ∀ (key : Str) (v : Str), key = "keywords".toList ∨ key = "topics".toList →
        '\n' ∉ v → '\n' ∉ key ++ ':' :: ' ' :: v := by
      intro key v hkey hv hm
      rcases List.mem_append.mp hm with hm1 | hm2
      · rcases hkey with h' | h' <;> (subst h'; revert hm1; decide)
      · rcases List.mem_cons.mp hm2 with hm3 | hm4
        · exact absurd hm3.symm (by decide)
        · rcases List.mem_cons.mp hm4 with hm5 | hm6
          · exact absurd hm5.symm (by decide)
          · exact hv hm6
    simp only [List.mem_cons, List.not_mem_nil, or_false] at hL
    rcases hL with rfl | rfl | rfl | rfl | rfl | rfl
    · exact ⟨hgen _ i (by simp) hi.2.1, 'i', _, rfl, by decide⟩
    · exact ⟨hgen _ sid (by simp) hs.2.1, 's', _, rfl, by decide⟩
    · exact ⟨hgen _ cr (by simp) hc.2.1, 'c', _, rfl, by decide⟩
    · exact ⟨hgen _ up (by simp) hu.2.1, 'u', _, rfl, by decide⟩
    · exact ⟨hgen2 _ _ (by simp) hkNL, 'k', _, rfl, by decide⟩
    · exact ⟨hgen2 _ _ (by simp) htNL, 't', _, rfl, by decide⟩
  have hshape : generateFrontmatter
      [("id".toList, .str i), ("session_id".toList, .str sid), ("created".toList, .str cr),
       ("updated".toList, .str up), ("keywords".toList, .arr ks), ("topics".toList, .arr ts)]
      ++ body =
      "---\n".toList ++ (joinLines [("id".toList ++ ':' :: ' ' :: i : Str),
        "session_id".toList ++ ':' :: ' ' :: sid,
        "created".toList ++ ':' :: ' ' :: cr,
        "updated".toList ++ ':' :: ' ' :: up,
        "keywords".toList ++ ':' :: ' ' :: ('[' :: (List.intercalate ", ".toList ks ++ [']'])),
        "topics".toList ++ ':' :: ' ' :: ('[' :: (List.intercalate ", ".toList ts ++ [']']))] ++
        ('\n' :: '-' :: '-' :: '-' :: '\n' :: body)) := by
    simp [generateFrontmatter, List.intercalate, List.intersperse, joinLines, jsToString,
      List.append_assoc]
  rw [hshape]
  unfold parseMarkdownFrontmatter
  rw [dropLit?_append]
  simp only []
  rw [show ("\n---\n".toList : Str) = FENCE from rfl]
  rw [splitAtMarker_fence_lines _ body (by simp) hlines]
  simp only []
  rw [splitOnChar_joinLines _ (by simp) (fun L hL => (hlines L hL).1)]
  have p1 : parseFrontmatterLine ("id".toList ++ ':' :: ' ' :: i) =
      some ("id".toList, .str i) :=
    parseFrontmatterLine_scalar _ i (by decide) (by decide) (by decide) hi
  have p2 : parseFrontmatterLine ("session_id".toList ++ ':' :: ' ' :: sid) =
      some ("session_id".toList, .str sid) :=
    parseFrontmatterLine_scalar _ sid (by decide) (by decide) (by decide) hs
  have p3 : parseFrontmatterLine ("created".toList ++ ':' :: ' ' :: cr) =
      some ("created".toList, .str cr) :=
    parseFrontmatterLine_scalar _ cr (by decide) (by decide) (by decide) hc
  have p4 : parseFrontmatterLine ("updated".toList ++ ':' :: ' ' :: up) =
      some ("updated".toList, .str up) :=
    parseFrontmatterLine_scalar _ up (by decide) (by decide) (by decide) hu
  have p5 : parseFrontmatterLine ("keywords".toList ++ ':' :: ' ' ::
      ('[' :: (List.intercalate ", ".toList ks ++ [']']))) =
      some ("keywords".toList, .arr ks) :=
    parseFrontmatterLine_array _ ks (by decide) (by decide) (by decide) hk hk2
  have p6 : parseFrontmatterLine ("topics".toList ++ ':' :: ' ' ::
      ('[' :: (List.intercalate ", ".toList ts ++ [']']))) =
      some ("topics".toList, .arr ts) :=
    parseFrontmatterLine_array _ ts (by decide) (by decide) (by decide) ht ht2
  simp only [parseFrontmatterLines, List.foldl, p1, p2, p3, p4, p5, p6]
  simp [alistSet, alistGet?, List.find?]

/-- The conversation encode/decode round-trip for well-formed conversations:
metadata comes back exactly, exchanges come back whitespace-trimmed. -/
lemma conv_roundtrip (i sid cr up : Str) (ks ts : List Str) (exs : List Exchange)
    (hi : goodScalar i) (hs : goodScalar sid) (hc : goodScalar cr) (hu : goodScalar up)
    (hk : ks ≠ []) (hk2 : ∀ k ∈ ks, goodItem k) (ht : ts ≠ []) (ht2 : ∀ k ∈ ts, goodItem k)
    (he : ∀ e ∈ exs, goodExchange e) :
    parseConversationMarkdown (generateConversationMarkdown
      { id := .str i, sessionId := .str sid, created := .str cr, updated := .str up,
        keywords := .arr ks, topics := .arr ts, exchanges := exs }) =
      { id := .str i, sessionId := .str sid, created := .str cr, updated := .str up,
        keywords := .arr ks, topics := .arr ts, exchanges := exs.map cleanExchange } := by
  unfold parseConversationMarkdown
  rw [show generateConversationMarkdown
      { id := .str i, sessionId := .str sid, created := .str cr, updated := .str up,
        keywords := .arr ks, topics := .arr ts, exchanges := exs } =
      generateFrontmatter
        [("id".toList, .str i), ("session_id".toList, .str sid), ("created".toList, .str cr),
         ("updated".toList, .str up), ("keywords".toList, .arr ks), ("topics".toList, .arr ts)]
        ++ conversationBody 1 exs from rfl]
  rw [parseMarkdownFrontmatter_conv i sid cr up ks ts _ hi hs hc hu hk hk2 ht ht2]
  simp only []
  rw [parseExchangesFrom_body 1 exs he]
  rfl

lemma goodConv_roundtrip (c : Conversation) (hg : goodConv c) :
    parseConversationMarkdown (generateConversationMarkdown c) =
      { c with exchanges := c.exchanges.map cleanExchange } := by
  obtain ⟨⟨s1, h1, g1⟩, ⟨s2, h2, g2⟩, ⟨s3, h3, g3⟩, ⟨s4, h4, g4⟩,
    ⟨l5, h5, n5, g5⟩, ⟨l6, h6, n6, g6⟩, he⟩ := hg
  cases c with
  | mk cid csid ccr cup ckw ctp cex =>
    simp only [] at h1 h2 h3 h4 h5 h6 he ⊢
    subst h1 h2 h3 h4 h5 h6
    exact conv_roundtrip s1 s2 s3 s4 l5 l6 cex g1 g2 g3 g4 n5 g5 n6 g6 he

/-- C1, counterexample: `rtBadConv` has 2 exchanges and non-empty keyword and
topic lists, yet decoding the generated markdown does not reproduce the first
answer (whitespace-trimmed): the embedded `\n---\n` rule ends the lazy answer
capture early, so the text after it is lost from that exchange. -/
theorem C1_counterexample :
    2 ≤ rtBadConv.exchanges.length ∧
    rtBadConv.keywords = .arr ["k".toList] ∧ rtBadConv.topics = .arr ["security".toList] ∧
    ¬((parseConversationMarkdown (generateConversationMarkdown rtBadConv)).exchanges.map
        (fun e => e.answer) =
      rtBadConv.exchanges.map (fun e => jsTrim e.answer)) := by
  decide

/-- C1 (amended): for conversations with ≥ 2 exchanges, non-empty keyword and
topic lists, and single-line texts — timestamps, questions and answers free of
newlines (so no section marker can be embedded), metadata strings trim-stable,
single-line and unbracketed, list entries additionally comma-free — decoding
the markdown produced by `generateConversationMarkdown` with
`parseConversationMarkdown` yields the same `id` and `sessionId` and exactly
one exchange per original exchange, whose question and answer texts are the
originals whitespace-trimmed. -/
theorem C1_roundtrip_wellformed (c : Conversation)
    (hlen : 2 ≤ c.exchanges.length) (hg : goodConv c) :
    (parseConversationMarkdown (generateConversationMarkdown c)).id = c.id ∧
    (parseConversationMarkdown (generateConversationMarkdown c)).sessionId = c.sessionId ∧
    (parseConversationMarkdown (generateConversationMarkdown c)).exchanges.length =
      c.exchanges.length ∧
    (parseConversationMarkdown (generateConversationMarkdown c)).exchanges.map
      (fun e => e.question) = c.exchanges.map (fun e => jsTrim e.question) ∧
    (parseConversationMarkdown (generateConversationMarkdown c)).exchanges.map
      (fun e => e.answer) = c.exchanges.map (fun e => jsTrim e.answer) := by
  rw [goodConv_roundtrip c hg]
  refine ⟨rfl, rfl, by simp, ?_, ?_⟩ <;>
    simp [cleanExchange, Function.comp]

/-- C1, witness: the amended round-trip theorem applied to a concrete
two-exchange conversation. -/
theorem C1_roundtrip_wellformed_witness :
    (parseConversationMarkdown (generateConversationMarkdown rtWitnessConv)).id =
      rtWitnessConv.id ∧
    (parseConversationMarkdown (generateConversationMarkdown rtWitnessConv)).exchanges.map
      (fun e => e.answer) = rtWitnessConv.exchanges.map (fun e => jsTrim e.answer) := by
  have h := C1_roundtrip_wellformed rtWitnessConv (by decide)
    ⟨⟨_, rfl, by decide⟩, ⟨_, rfl, by decide⟩, ⟨_, rfl, by decide⟩, ⟨_, rfl, by decide⟩,
     ⟨_, rfl, by decide, by decide⟩, ⟨_, rfl, by decide, by decide⟩, by decide⟩
  exact ⟨h.1, h.2.2.2.2⟩

lemma updateIndex_recent_eq (idx : Index) (c : Conversation) (path now : Str) :
    (updateIndex idx c path now).recent =
      (if 50 < (recentEntryOf c path ::
          idx.recent.filter (fun r => !jsStrictEq r.id c.id)).length then
        (recentEntryOf c path :: idx.recent.filter (fun r => !jsStrictEq r.id c.id)).take 50
      else recentEntryOf c path :: idx.recent.filter (fun r => !jsStrictEq r.id c.id)) := rfl

lemma updateIndex_recent_le (idx : Index) (c : Conversation) (path now : Str)
    (h : idx.recent.length ≤ 50) : (updateIndex idx c path now).recent.length ≤ 50 := by
  rw [updateIndex_recent_eq]
  have hf : (idx.recent.filter (fun r => !jsStrictEq r.id c.id)).length ≤ 50 :=
    le_trans (List.length_filter_le _ _) h
  by_cases h51 : 50 < (recentEntryOf c path ::
      idx.recent.filter (fun r => !jsStrictEq r.id c.id)).length
  · rw [if_pos h51]
    simp [List.length_take]
  · rw [if_neg h51]
    omega

/-- C2: starting from any index whose `recent` list has at most 50 entries,
`updateIndex` keeps the length at most 50, puts the just-recorded
conversation's entry at the head with the remaining entries an order-preserving
selection of the old list, evicts exactly the oldest (last) entry when the
list is full and the conversation is new, and any number of updates starting
from the empty index keeps the bound. -/
theorem C2_recent_invariant (idx : Index) (c : Conversation) (path now : Str)
    (hlen : idx.recent.length ≤ 50) :
    ((updateIndex idx c path now).recent.length ≤ 50) ∧
    (∃ rest, (updateIndex idx c path now).recent = recentEntryOf c path :: rest ∧
      rest.Sublist idx.recent) ∧
    (idx.recent.length = 50 → (∀ r ∈ idx.recent, jsStrictEq r.id c.id = false) →
      (updateIndex idx c path now).recent = recentEntryOf c path :: idx.recent.take 49) ∧
    (∀ (args : List (Conversation × Str × Str)) (inst now0 : Str),
      (args.foldl (fun i a => updateIndex i a.1 a.2.1 a.2.2)
        (createEmptyIndex inst now0)).recent.length ≤ 50) := by
  refine ⟨updateIndex_recent_le idx c path now hlen, ?_, ?_, ?_⟩
  · rw [updateIndex_recent_eq]
    by_cases h51 : 50 < (recentEntryOf c path ::
        idx.recent.filter (fun r => !jsStrictEq r.id c.id)).length
    · rw [if_pos h51]
      refine ⟨(idx.recent.filter (fun r => !jsStrictEq r.id c.id)).take 49, ?_, ?_⟩
      · rfl
      · exact ((List.take_sublist _ _).trans (List.filter_sublist _))
    · rw [if_neg h51]
      exact ⟨_, rfl, List.filter_sublist _⟩
  · intro h50 hnew
    have hfe : idx.recent.filter (fun r => !jsStrictEq r.id c.id) = idx.recent :=
      List.filter_eq_self.mpr (fun r hr => by simp [hnew r hr])
    rw [updateIndex_recent_eq, hfe, if_pos (by simp [h50])]
    rfl
  · intro args inst now0
    induction args using List.reverseRecOn with
    | nil => simp [createEmptyIndex]
    | append_singleton xs x ih =>
      rw [List.foldl_append]
      exact updateIndex_recent_le _ _ _ _ ih

/-- C2, witness: the invariant theorem applied to a one-entry index. -/
theorem C2_recent_invariant_witness :
    (updateIndex uiWitnessIdx rtWitnessConv "p2.md".toList "t2".toList).recent.length ≤ 50 ∧
    (∃ rest, (updateIndex uiWitnessIdx rtWitnessConv "p2.md".toList "t2".toList).recent =
      recentEntryOf rtWitnessConv "p2.md".toList :: rest ∧ rest.Sublist uiWitnessIdx.recent) :=
  have h := C2_recent_invariant uiWitnessIdx rtWitnessConv "p2.md".toList "t2".toList (by decide)
  ⟨h.1, h.2.1⟩

/-- C10, counterexample: on an input index whose `recent` list already repeats
an id, `updateIndex` neither removes the duplicates nor makes
`totalConversations` equal the new list's length (it counts distinct ids). -/
theorem C10_counterexample :
    ¬ ((((updateIndex dupIdx rtWitnessConv "p2.md".toList "t2".toList).recent.map
          (fun r => r.id)).Nodup) ∧
       (updateIndex dupIdx rtWitnessConv "p2.md".toList "t2".toList).totalConversations =
         (updateIndex dupIdx rtWitnessConv "p2.md".toList "t2".toList).recent.length) := by
  decide

/-- C10 (amended): when the input index's `recent` ids are pairwise distinct
strings and the recorded conversation's id is a string, the updated `recent`
list again has pairwise-distinct ids (the conversation's prior entry is
removed before the new entry is prepended) and `totalConversations` equals
its length. -/
theorem C10_distinct_ids (idx : Index) (c : Conversation) (path now : Str)
    (hnd : (idx.recent.map (fun r => r.id)).Nodup)
    (hcid : ∃ s, c.id = .str s)
    (hrid : ∀ r ∈ idx.recent, ∃ s, r.id = .str s) :
    (((updateIndex idx c path now).recent.map (fun r => r.id)).Nodup) ∧
    (updateIndex idx c path now).totalConversations =
      (updateIndex idx c path now).recent.length := by
  obtain ⟨cs, hcs⟩ := hcid
  have hnodup : ((recentEntryOf c path ::
      idx.recent.filter (fun r => !jsStrictEq r.id c.id)).map (fun r => r.id)).Nodup := by
    rw [List.map_cons]
    refine List.Nodup.cons ?_ ?_
    · intro hmem
      rw [List.mem_map] at hmem
      obtain ⟨r, hr, hrid2⟩ := hmem
      have hrm := List.mem_filter.mp hr
      obtain ⟨s, hsv⟩ := hrid r hrm.1
      have : jsStrictEq r.id c.id = true := by
        rw [hsv, hcs]
        have hseq : JsVal.str s = JsVal.str cs := by
          rw [← hsv, hrid2, show (recentEntryOf c path).id = c.id from rfl, hcs]
        have : s = cs := JsVal.str.inj hseq
        simp [jsStrictEq, this]
      rw [this] at hrm
      simp at hrm
    · exact ((List.filter_sublist _).map (fun r : RecentEntry => r.id)).nodup hnd
  have hkey : ((updateIndex idx c path now).recent.map (fun r => r.id)).Nodup := by
    rw [updateIndex_recent_eq]
    by_cases h51 : 50 < (recentEntryOf c path ::
        idx.recent.filter (fun r => !jsStrictEq r.id c.id)).length
    · rw [if_pos h51]
      exact ((List.take_sublist _ _).map (fun r : RecentEntry => r.id)).nodup hnodup
    · rw [if_neg h51]
      exact hnodup
  refine ⟨hkey, ?_⟩
  have htc : (updateIndex idx c path now).totalConversations =
      ((updateIndex idx c path now).recent.map (fun r => r.id)).dedup.length := rfl
  rw [htc, List.dedup_eq_self.mpr hkey, List.length_map]

/-- C10, witness: the amended theorem applied to a concrete index. -/
theorem C10_distinct_ids_witness :
    (((updateIndex uiWitnessIdx rtWitnessConv "p2.md".toList "t2".toList).recent.map
        (fun r => r.id)).Nodup) ∧
    (updateIndex uiWitnessIdx rtWitnessConv "p2.md".toList "t2".toList).totalConversations =
      (updateIndex uiWitnessIdx rtWitnessConv "p2.md".toList "t2".toList).recent.length :=
  C10_distinct_ids uiWitnessIdx rtWitnessConv "p2.md".toList "t2".toList (by decide)
    ⟨"aaaa0001".toList, rfl⟩
    (by
      intro r hr
      simp only [uiWitnessIdx, List.mem_singleton] at hr
      subst hr
      exact ⟨"old1".toList, rfl⟩)

/-! ## Sorting lemmas for the ranked retrieval -/

lemma mem_insDesc [LinearOrder β] (key : α → β) (x a : α) (l : List α) :
    a ∈ insDesc key x l ↔ a = x ∨ a ∈ l := by
  induction l with
  | nil => simp [insDesc]
  | cons y ys ih =>
    unfold insDesc
    by_cases hc : key y ≤ key x
    · simp [hc]
    · simp only [hc, if_false, List.mem_cons, ih]
      tauto

lemma insDesc_pairwise [LinearOrder β] (key : α → β) (x : α) (l : List α)
    (h : l.Pairwise (fun a b => key b ≤ key a)) :
    (insDesc key x l).Pairwise (fun a b => key b ≤ key a) := by
  induction l with
  | nil => simp [insDesc]
  | cons y ys ih =>
    unfold insDesc
    by_cases hc : key y ≤ key x
    · rw [if_pos hc]
      refine List.Pairwise.cons ?_ h
      intro b hb
      rcases List.mem_cons.mp hb with rfl | hb2
      · exact hc
      · exact le_trans (List.rel_of_pairwise_cons h hb2) hc
    · rw [if_neg hc]
      have hy := List.pairwise_cons.mp h
      refine List.Pairwise.cons ?_ (ih hy.2)
      intro b hb
      rcases (mem_insDesc key x b ys).mp hb with rfl | hb2
      · exact le_of_not_le hc
      · exact hy.1 b hb2

lemma sortDesc_pairwise [LinearOrder β] (key : α → β) (l : List α) :
    (sortDesc key l).Pairwise (fun a b => key b ≤ key a) := by
  induction l with
  | nil => simp [sortDesc]
  | cons x xs ih => exact insDesc_pairwise key x (sortDesc key xs) ih

lemma mem_sortDesc [LinearOrder β] (key : α → β) (a : α) (l : List α) :
    a ∈ sortDesc key l ↔ a ∈ l := by
  induction l with
  | nil => simp [sortDesc]
  | cons x xs ih =>
    unfold sortDesc
    rw [mem_insDesc, ih, List.mem_cons]

/-- C3 (amended): `findRelevantConversations` never returns an entry scoring
below `minScore`, returns at most `maxResults` entries, and returns them in
descending (non-increasing) score order.  (Strictly-descending order fails on
ties, see the counterexample.) -/
theorem C3_ranked_results (q : Str) (idx : Index) (maxResults : Nat) (minScore rB : ℚ) :
    (∀ e ∈ findRelevantConversations q idx maxResults minScore rB, minScore ≤ e.2) ∧
    (findRelevantConversations q idx maxResults minScore rB).length ≤ maxResults ∧
    (findRelevantConversations q idx maxResults minScore rB).Pairwise
      (fun a b => b.2 ≤ a.2) := by
  obtain ⟨sc, hsc⟩ : ∃ sc : List (Str × ℚ),
      findRelevantConversations q idx maxResults minScore rB =
        (sortDesc (fun p : Str × ℚ => p.2) (sc.filter (fun p => minScore ≤ p.2))).take
          maxResults := ⟨_, rfl⟩
  rw [hsc]
  refine ⟨?_, ?_, ?_⟩
  · intro e he
    have h1 : e ∈ sortDesc (fun p : Str × ℚ => p.2)
        (sc.filter (fun p => minScore ≤ p.2)) := (List.take_sublist _ _).subset he
    have h2 := (mem_sortDesc _ e _).mp h1
    have h3 := (List.mem_filter.mp h2).2
    simpa using h3
  · simpa using List.length_take_le maxResults _
  · exact List.Pairwise.sublist (List.take_sublist _ _) (sortDesc_pairwise _ _)

/-- C3, counterexample: with two conversations indexed under the query's only
keyword, both score exactly 1 and the returned list is not *strictly*
descending — ties are returned with equal adjacent scores. -/
theorem C3_counterexample : ¬ (List.Pairwise (fun a b => b.2 < a.2)
    (findRelevantConversations "postgres".toList cxIdx 3 (1 / 10) (1 / 10))) := by
  intro hpw
  have hq : extractKeywords "postgres".toList 10 = ["postgres".toList] := by decide
  have ht : extractTopics "postgres".toList [] = ([] : List Str) := by decide
  have hm : findKeywordMatches ["postgres".toList]
      [("postgres".toList, [JsVal.str "c1".toList, JsVal.str "c2".toList])] =
      [("c1".toList, 1), ("c2".toList, 1)] := by decide
  have hres : findRelevantConversations "postgres".toList cxIdx 3 (1 / 10) (1 / 10) =
      [("c1".toList, (1 : ℚ)), ("c2".toList, (1 : ℚ))] := by
    simp only [findRelevantConversations, cxIdx, hq, ht, hm]
    norm_num
    simp [sortDesc, insDesc]
  rw [hres] at hpw
  exact absurd (List.rel_of_pairwise_cons hpw (List.mem_singleton.mpr rfl))
    (lt_irrefl (1 : ℚ))

/-! ## Topic extraction lemmas -/

lemma mem_setAdd (l : List Str) (y x : Str) : x ∈ setAdd l y ↔ x ∈ l ∨ x = y := by
  unfold setAdd
  by_cases h : y ∈ l
  · simp only [h, if_true]
    constructor
    · exact Or.inl
    · rintro (hx | rfl)
      · exact hx
      · exact h
  · simp [h]

lemma extractTopics_foldl_mem (entries : List (Str × List Str)) (tokens : List Str)
    (acc : List Str) (x : Str) :
    x ∈ entries.foldl
      (fun acc p => if 2 ≤ p.2.countP (fun k => k ∈ tokens) then setAdd acc p.1 else acc)
      acc ↔
    x ∈ acc ∨ ∃ p ∈ entries, p.1 = x ∧ 2 ≤ p.2.countP (fun k => k ∈ tokens) := by
  induction entries generalizing acc with
  | nil => simp
  | cons e rest ih =>
    rw [List.foldl_cons]
    by_cases hc : 2 ≤ e.2.countP (fun k => k ∈ tokens)
    · rw [if_pos hc, ih]
      rw [mem_setAdd]
      constructor
      · rintro (⟨hx | rfl⟩ | ⟨p, hp, hpx, hpc⟩)
        · exact Or.inl hx
        · exact Or.inr ⟨e, by simp, rfl, hc⟩
        · exact Or.inr ⟨p, List.mem_cons_of_mem _ hp, hpx, hpc⟩
      · rintro (hx | ⟨p, hp, hpx, hpc⟩)
        · exact Or.inl (Or.inl hx)
        · rcases List.mem_cons.mp hp with rfl | hp2
          · exact Or.inl (Or.inr hpx.symm)
          · exact Or.inr ⟨p, hp2, hpx, hpc⟩
    · rw [if_neg hc, ih]
      constructor
      · rintro (hx | ⟨p, hp, hpx, hpc⟩)
        · exact Or.inl hx
        · exact Or.inr ⟨p, List.mem_cons_of_mem _ hp, hpx, hpc⟩
      · rintro (hx | ⟨p, hp, hpx, hpc⟩)
        · exact Or.inl hx
        · rcases List.mem_cons.mp hp with rfl | hp2
          · exact absurd hpc hc
          · exact Or.inr ⟨p, hp2, hpx, hpc⟩

lemma alistGet?_of_mem_nodup {α : Type} {l : List (Str × α)} (h : (l.map (·.1)).Nodup)
    {k : Str} {v : α} (hm : (k, v) ∈ l) : alistGet? l k = some v := by
  induction l with
  | nil => simp at hm
  | cons e rest ih =>
    simp only [List.map_cons, List.nodup_cons] at h
    rcases List.mem_cons.mp hm with rfl | hm2
    · simp [alistGet?]
    · have hne : ¬(e.1 == k) = true := by
        intro hbe
        have he : e.1 = k := by simpa using hbe
        exact h.1 (he ▸ List.mem_map.mpr ⟨(k, v), hm2, rfl⟩)
      unfold alistGet?
      rw [show List.find? (fun p => p.1 == k) (e :: rest) = List.find? (fun p => p.1 == k) rest
        from List.find?_cons_of_neg _ hne]
      exact ih h.2 hm2

lemma mem_of_alistGet? {α : Type} {l : List (Str × α)} {k : Str} {v : α}
    (h : alistGet? l k = some v) : (k, v) ∈ l := by
  unfold alistGet? at h
  cases hf : l.find? (fun p => p.1 == k) with
  | none => rw [hf] at h; simp at h
  | some p =>
    rw [hf] at h
    simp only [Option.map_some', Option.some.injEq] at h
    have hp1 := List.find?_some hf
    have hp2 := List.mem_of_find?_eq_some hf
    have hk : p.1 = k := by simpa using hp1
    rw [← h, ← hk]
    exact hp2

lemma two_le_countP_iff {l : List Str} (h : l.Nodup) (p : Str → Bool) :
    2 ≤ l.countP p ↔
      ∃ a b, a ≠ b ∧ a ∈ l ∧ b ∈ l ∧ p a = true ∧ p b = true := by
  rw [List.countP_eq_length_filter]
  constructor
  · intro h2
    match hf : l.filter p with
    | [] => rw [hf] at h2; simp at h2
    | [x] => rw [hf] at h2; simp at h2
    | a :: b :: rest =>
      have hnd : (a :: b :: rest).Nodup := hf ▸ h.filter p
      have hab : a ≠ b := by
        intro hcc
        subst hcc
        simp at hnd
      have hamem := List.mem_filter.mp (hf ▸ (by simp : a ∈ a :: b :: rest))
      have hbmem := List.mem_filter.mp (hf ▸ (by simp : b ∈ a :: b :: rest))
      exact ⟨a, b, hab, hamem.1, hbmem.1, hamem.2, hbmem.2⟩
  · rintro ⟨a, b, hab, ha, hb, hpa, hpb⟩
    have haf : a ∈ l.filter p := List.mem_filter.mpr ⟨ha, hpa⟩
    have hbf : b ∈ l.filter p := List.mem_filter.mpr ⟨hb, hpb⟩
    match hf : l.filter p with
    | [] => rw [hf] at haf; simp at haf
    | [x] =>
      rw [hf] at haf hbf
      simp only [List.mem_singleton] at haf hbf
      exact absurd (haf.trans hbf.symm) hab
    | x :: y :: rest => simp

lemma extractTopics_mem_iff (text : Str) (topic : Str) :
    topic ∈ extractTopics text [] ↔
      ∃ p ∈ TOPIC_KEYWORDS, p.1 = topic ∧
        2 ≤ p.2.countP (fun k => k ∈ tokenize text) := by
  unfold extractTopics
  rw [extractTopics_foldl_mem]
  simp [jsDedup, jsDedupGo]

/-- C4: `extractTopics` with no pre-existing topics returns a topic iff at
least two distinct keywords from that topic's configured keyword set occur
among the tokens of the text; in particular "jwt token authentication" yields
topic `security` while "jwt" alone does not. -/
theorem C4_topic_assignment :
    (∀ (text topic : Str),
      topic ∈ extractTopics text [] ↔
        ∃ k₁ k₂, k₁ ≠ k₂ ∧ k₁ ∈ topicKeywordsOf topic ∧ k₂ ∈ topicKeywordsOf topic ∧
          k₁ ∈ tokenize text ∧ k₂ ∈ tokenize text) ∧
    "security".toList ∈ extractTopics "jwt token authentication".toList [] ∧
    "security".toList ∉ extractTopics "jwt".toList [] := by
  have hkeys : (TOPIC_KEYWORDS.map (·.1)).Nodup := by decide
  have hvals : ∀ p ∈ TOPIC_KEYWORDS, p.2.Nodup := by decide
  refine ⟨fun text topic => ?_, by decide, by decide⟩
  rw [extractTopics_mem_iff]
  constructor
  · rintro ⟨p, hp, hpt, hc⟩
    have hget : alistGet? TOPIC_KEYWORDS topic = some p.2 :=
      alistGet?_of_mem_nodup hkeys (by rw [← hpt]; exact hp)
    have hkw : topicKeywordsOf topic = p.2 := by
      unfold topicKeywordsOf
      rw [hget]
      rfl
    obtain ⟨a, b, hab, ha, hb, hpa, hpb⟩ := (two_le_countP_iff (hvals p hp) _).mp hc
    exact ⟨a, b, hab, hkw ▸ ha, hkw ▸ hb, of_decide_eq_true hpa, of_decide_eq_true hpb⟩
  · rintro ⟨k₁, k₂, hne, h1, h2, ht1, ht2⟩
    unfold topicKeywordsOf at h1 h2
    cases hget : alistGet? TOPIC_KEYWORDS topic with
    | none =>
      rw [hget] at h1
      simp at h1
    | some l =>
      rw [hget] at h1 h2
      simp only [Option.getD_some] at h1 h2
      have hmem : (topic, l) ∈ TOPIC_KEYWORDS := mem_of_alistGet? hget
      refine ⟨(topic, l), hmem, rfl, (two_le_countP_iff (hvals _ hmem) _).mpr
        ⟨k₁, k₂, hne, h1, h2, decide_eq_true ht1, decide_eq_true ht2⟩⟩

lemma fst_alistSet_fun {α : Type} (k : Str) (v : α) (p : Str × α) :
    (if p.1 == k then (p.1, v) else p).1 = p.1 := by
  by_cases h : p.1 == k <;> simp [h]

lemma alistSet_get_self {α : Type} (l : List (Str × α)) (k : Str) (v : α) :
    alistGet? (alistSet l k v) k = some v := by
  unfold alistSet
  by_cases hs : (l.find? (fun p => p.1 == k)).isSome
  · rw [if_pos hs]
    obtain ⟨a, ha⟩ := Option.isSome_iff_exists.mp hs
    have hak : (a.1 == k) = true := by simpa using List.find?_some ha
    unfold alistGet?
    rw [List.find?_map]
    have hcomp : ((fun p : Str × α => p.1 == k) ∘
        fun p => if p.1 == k then (p.1, v) else p) = fun p : Str × α => p.1 == k := by
      funext p
      simp only [Function.comp_apply, fst_alistSet_fun]
    rw [hcomp, ha]
    have hak' : a.1 = k := by simpa using hak
    simp [hak']
  · rw [if_neg hs]
    have hn : l.find? (fun p => p.1 == k) = none := Option.not_isSome_iff_eq_none.mp hs
    unfold alistGet?
    rw [List.find?_append, hn]
    simp [List.find?]

lemma alistSet_get_other {α : Type} (l : List (Str × α)) (k k' : Str) (v : α)
    (h : k ≠ k') : alistGet? (alistSet l k v) k' = alistGet? l k' := by
  unfold alistSet
  by_cases hs : (l.find? (fun p => p.1 == k)).isSome
  · rw [if_pos hs]
    unfold alistGet?
    rw [List.find?_map]
    have hcomp : ((fun p : Str × α => p.1 == k') ∘
        fun p => if p.1 == k then (p.1, v) else p) = fun p : Str × α => p.1 == k' := by
      funext p
      simp only [Function.comp_apply, fst_alistSet_fun]
    rw [hcomp]
    cases hf : l.find? (fun p => p.1 == k') with
    | none => rfl
    | some a =>
      have hak : (a.1 == k') = true := by simpa using List.find?_some hf
      have hne : ¬(a.1 == k) = true := by
        intro hc
        exact h ((beq_iff_eq.mp hc).symm.trans (beq_iff_eq.mp hak))
      simp only [Option.map_some']
      rw [if_neg hne]
  · rw [if_neg hs]
    unfold alistGet?
    rw [List.find?_append]
    cases hf : l.find? (fun p => p.1 == k') with
    | none =>
      have h1 : List.find? (fun p : Str × α => p.1 == k') [(k, v)] = none :=
        List.find?_cons_of_neg _ (by simpa using h)
      rw [h1]
      rfl
    | some a => simp

lemma alistSet_keys {α : Type} (l : List (Str × α)) (k : Str) (v : α) :
    (alistSet l k v).map (·.1) =
      if (l.find? (fun p => p.1 == k)).isSome then l.map (·.1)
      else l.map (·.1) ++ [k] := by
  unfold alistSet
  by_cases hs : (l.find? (fun p => p.1 == k)).isSome
  · rw [if_pos hs, if_pos hs, List.map_map]
    congr 1
    funext p
    exact fst_alistSet_fun k v p
  · rw [if_neg hs, if_neg hs]
    simp

lemma alistGet?_isSome_iff_find? {α : Type} (l : List (Str × α)) (k : Str) :
    (alistGet? l k).isSome = (l.find? (fun p => p.1 == k)).isSome := by
  unfold alistGet?
  cases l.find? (fun p => p.1 == k) <;> rfl

lemma alistBump_get_self (l : List (Str × Nat)) (k : Str) :
    alistGet? (alistBump l k) k = some ((alistGet? l k).getD 0 + 1) :=
  alistSet_get_self l k _

lemma alistBump_get_other (l : List (Str × Nat)) (k k' : Str) (h : k ≠ k') :
    alistGet? (alistBump l k) k' = alistGet? l k' :=
  alistSet_get_other l k k' _ h

lemma alistBump_keys (l : List (Str × Nat)) (k : Str) :
    (alistBump l k).map (·.1) =
      if k ∈ l.map (·.1) then l.map (·.1) else l.map (·.1) ++ [k] := by
  unfold alistBump
  rw [alistSet_keys]
  have hiff : ((l.find? (fun p => p.1 == k)).isSome = true) ↔ k ∈ l.map (·.1) := by
    rw [List.find?_isSome]
    constructor
    · rintro ⟨x, hx, hpx⟩
      exact List.mem_map.mpr ⟨x, hx, by simpa using hpx⟩
    · intro hm
      obtain ⟨x, hx, hxk⟩ := List.mem_map.mp hm
      exact ⟨x, hx, by simp [hxk]⟩
  simp only [hiff]

lemma countFreqGo_get (toks : List Str) (acc : List (Str × Nat)) (k : Str) :
    alistGet? (toks.foldl
        (fun freqs t => if t ∈ STOP_WORDS then freqs else alistBump freqs t) acc) k =
      if k ∈ toks.filter (fun t => !decide (t ∈ STOP_WORDS))
      then some ((alistGet? acc k).getD 0 +
        (toks.filter (fun t => !decide (t ∈ STOP_WORDS))).count k)
      else alistGet? acc k := by
  induction toks generalizing acc with
  | nil => simp
  | cons t ts ih =>
    rw [List.foldl_cons]
    by_cases hst : t ∈ STOP_WORDS
    · rw [if_pos hst]
      have hfc : (t :: ts).filter (fun t => !decide (t ∈ STOP_WORDS)) =
          ts.filter (fun t => !decide (t ∈ STOP_WORDS)) := by
        rw [List.filter_cons]
        simp [hst]
      rw [hfc, ih]
    · rw [if_neg hst]
      have hfc : (t :: ts).filter (fun t => !decide (t ∈ STOP_WORDS)) =
          t :: ts.filter (fun t => !decide (t ∈ STOP_WORDS)) := by
        rw [List.filter_cons]
        simp [hst]
      rw [hfc, ih]
      by_cases hk : k = t
      · subst hk
        rw [alistBump_get_self]
        by_cases hm : k ∈ ts.filter (fun t => !decide (t ∈ STOP_WORDS))
        · rw [if_pos hm, if_pos (List.mem_cons_self _ _), List.count_cons_self]
          simp only [Option.getD_some]
          congr 1
          omega
        · rw [if_neg hm, if_pos (List.mem_cons_self _ _), List.count_cons_self,
            List.count_eq_zero.mpr hm]
      · have hmc : (k ∈ t :: ts.filter (fun t => !decide (t ∈ STOP_WORDS))) ↔
            (k ∈ ts.filter (fun t => !decide (t ∈ STOP_WORDS))) := by
          simp [List.mem_cons, hk]
        rw [alistBump_get_other _ _ _ (fun hc => hk hc.symm),
          List.count_cons_of_ne hk]
        by_cases hm : k ∈ ts.filter (fun t => !decide (t ∈ STOP_WORDS))
        · rw [if_pos hm, if_pos (hmc.mpr hm)]
        · rw [if_neg hm, if_neg (fun hc => hm (hmc.mp hc))]

lemma jsDedupGo_cons (seen : List Str) (x : Str) (xs : List Str) :
    jsDedupGo seen (x :: xs) =
      if x ∈ seen then jsDedupGo seen xs else x :: jsDedupGo (x :: seen) xs := rfl

lemma jsDedupGo_congr (s₁ s₂ l : List Str) (h : ∀ x, x ∈ s₁ ↔ x ∈ s₂) :
    jsDedupGo s₁ l = jsDedupGo s₂ l := by
  induction l generalizing s₁ s₂ with
  | nil => rfl
  | cons x xs ih =>
    unfold jsDedupGo
    by_cases hx : x ∈ s₁
    · rw [if_pos hx, if_pos ((h x).mp hx)]
      exact ih s₁ s₂ h
    · rw [if_neg hx, if_neg (fun hc => hx ((h x).mpr hc))]
      refine congrArg _ (ih _ _ fun y => ?_)
      simp only [List.mem_cons]
      rw [h y]

lemma mem_jsDedupGo (seen l : List Str) (x : Str) :
    x ∈ jsDedupGo seen l ↔ x ∈ l ∧ x ∉ seen := by
  induction l generalizing seen with
  | nil => simp [jsDedupGo]
  | cons y ys ih =>
    unfold jsDedupGo
    by_cases hy : y ∈ seen
    · rw [if_pos hy, ih]
      simp only [List.mem_cons]
      constructor
      · rintro ⟨hm, hs⟩
        exact ⟨Or.inr hm, hs⟩
      · rintro ⟨hm | hm, hs⟩
        · exact absurd hy (hm ▸ hs)
        · exact ⟨hm, hs⟩
    · rw [if_neg hy]
      simp only [List.mem_cons, ih, List.mem_cons]
      constructor
      · rintro (rfl | ⟨hm, hs⟩)
        · exact ⟨Or.inl rfl, hy⟩
        · exact ⟨Or.inr hm, fun hc => hs (Or.inr hc)⟩
      · rintro ⟨rfl | hm, hs⟩
        · exact Or.inl rfl
        · by_cases hxy : x = y
          · exact Or.inl hxy
          · exact Or.inr ⟨hm, fun hc => hc.elim hxy hs⟩

lemma jsDedupGo_nodup (l : List Str) : ∀ seen : List Str, (jsDedupGo seen l).Nodup := by
  induction l with
  | nil => intro seen; simp [jsDedupGo]
  | cons x xs ih =>
    intro seen
    unfold jsDedupGo
    by_cases hx : x ∈ seen
    · rw [if_pos hx]
      exact ih seen
    · rw [if_neg hx]
      refine List.nodup_cons.mpr ⟨fun hc => ?_, ih (x :: seen)⟩
      exact ((mem_jsDedupGo _ _ _).mp hc).2 (List.mem_cons_self _ _)

lemma countFreqGo_keys (toks : List Str) (acc : List (Str × Nat)) :
    (toks.foldl
        (fun freqs t => if t ∈ STOP_WORDS then freqs else alistBump freqs t) acc).map (·.1) =
      acc.map (·.1) ++
        jsDedupGo (acc.map (·.1)) (toks.filter (fun t => !decide (t ∈ STOP_WORDS))) := by
  induction toks generalizing acc with
  | nil => simp [jsDedupGo]
  | cons t ts ih =>
    rw [List.foldl_cons]
    by_cases hst : t ∈ STOP_WORDS
    · rw [if_pos hst]
      have hfc : (t :: ts).filter (fun t => !decide (t ∈ STOP_WORDS)) =
          ts.filter (fun t => !decide (t ∈ STOP_WORDS)) := by
        rw [List.filter_cons]
        simp [hst]
      rw [hfc, ih]
    · rw [if_neg hst]
      have hfc : (t :: ts).filter (fun t => !decide (t ∈ STOP_WORDS)) =
          t :: ts.filter (fun t => !decide (t ∈ STOP_WORDS)) := by
        rw [List.filter_cons]
        simp [hst]
      rw [hfc, ih]
      by_cases hm : t ∈ acc.map (·.1)
      · have hkeys : (alistBump acc t).map (·.1) = acc.map (·.1) := by
          rw [alistBump_keys, if_pos hm]
        rw [hkeys, jsDedupGo_cons, if_pos hm]
      · have hkeys : (alistBump acc t).map (·.1) = acc.map (·.1) ++ [t] := by
          rw [alistBump_keys, if_neg hm]
        rw [hkeys, jsDedupGo_cons, if_neg hm]
        rw [jsDedupGo_congr (acc.map (·.1) ++ [t]) (t :: acc.map (·.1)) _
          (fun y => by simp [or_comm])]
        rw [List.append_assoc]
        rfl

lemma countFrequencies_keys (toks : List Str) :
    (countFrequencies toks).map (·.1) =
      jsDedup (toks.filter (fun t => !decide (t ∈ STOP_WORDS))) := by
  unfold countFrequencies jsDedup
  rw [countFreqGo_keys]
  simp

lemma countFrequencies_get (toks : List Str) (k : Str) :
    alistGet? (countFrequencies toks) k =
      if k ∈ toks.filter (fun t => !decide (t ∈ STOP_WORDS))
      then some ((toks.filter (fun t => !decide (t ∈ STOP_WORDS))).count k)
      else none := by
  unfold countFrequencies
  rw [countFreqGo_get]
  by_cases hm : k ∈ toks.filter (fun t => !decide (t ∈ STOP_WORDS))
  · rw [if_pos hm, if_pos hm]
    simp [alistGet?]
  · rw [if_neg hm, if_neg hm]
    rfl

lemma insDesc_filter [LinearOrder β] [DecidableEq β] (key : α → β) (x : α) (l : List α)
    (v : β) :
    (insDesc key x l).filter (fun y => decide (key y = v)) =
      (x :: l).filter (fun y => decide (key y = v)) := by
  induction l with
  | nil => rfl
  | cons y ys ih =>
    unfold insDesc
    by_cases hle : key y ≤ key x
    · rw [if_pos hle]
    · rw [if_neg hle]
      have hlt : key x < key y := lt_of_not_le hle
      by_cases hyv : key y = v
      · have hxv : key x ≠ v := fun hc => absurd (hc ▸ hlt) (hyv ▸ lt_irrefl v)
        simp [List.filter_cons, hyv, hxv, ih]
      · by_cases hxv : key x = v <;> simp [List.filter_cons, hyv, hxv, ih]

lemma sortDesc_filter [LinearOrder β] [DecidableEq β] (key : α → β) (l : List α) (v : β) :
    (sortDesc key l).filter (fun y => decide (key y = v)) =
      l.filter (fun y => decide (key y = v)) := by
  induction l with
  | nil => rfl
  | cons x xs ih =>
    unfold sortDesc
    rw [insDesc_filter, List.filter_cons, List.filter_cons, ih]

lemma pair_sublist_map {α γ : Type} (f : α → γ) (a b : γ) :
    ∀ l : List α, [a, b].Sublist (l.map f) →
      ∃ pa pb, [pa, pb].Sublist l ∧ f pa = a ∧ f pb = b := by
  intro l
  induction l with
  | nil => intro h; simp at h
  | cons x xs ih =>
    intro h
    rw [List.map_cons] at h
    cases h with
    | cons _ h' =>
      obtain ⟨pa, pb, hs, ha, hb⟩ := ih h'
      exact ⟨pa, pb, hs.cons x, ha, hb⟩
    | cons₂ _ h' =>
      obtain ⟨pb, hm, hb⟩ := List.mem_map.mp (List.singleton_sublist.mp h')
      exact ⟨x, pb, (List.singleton_sublist.mpr hm).cons₂ x, rfl, hb⟩

lemma mem_insAsc [LinearOrder β] (key : α → β) (x a : α) (l : List α) :
    a ∈ insAsc key x l ↔ a = x ∨ a ∈ l := by
  induction l with
  | nil => simp [insAsc]
  | cons y ys ih =>
    unfold insAsc
    by_cases h : key x < key y
    · rw [if_pos h]
      simp [List.mem_cons]
    · rw [if_neg h]
      simp only [List.mem_cons, ih]
      tauto

lemma mem_sortAsc [LinearOrder β] (key : α → β) (a : α) (l : List α) :
    a ∈ sortAsc key l ↔ a ∈ l := by
  induction l with
  | nil => simp [sortAsc]
  | cons x xs ih =>
    unfold sortAsc
    rw [mem_insAsc, ih, List.mem_cons]

lemma mem_jsEntriesOrder {α : Type} (p : Str × α) (l : List (Str × α)) :
    p ∈ jsEntriesOrder l ↔ p ∈ l := by
  unfold jsEntriesOrder
  rw [List.mem_append, mem_sortAsc]
  constructor
  · rintro (h | h)
    · exact (List.mem_filter.mp h).1
    · exact (List.mem_filter.mp h).1
  · intro h
    by_cases hk : isArrayIndexKey p.1
    · exact Or.inl (List.mem_filter.mpr ⟨h, hk⟩)
    · exact Or.inr (List.mem_filter.mpr ⟨h, by simpa using hk⟩)

lemma map_fst_filter {α : Type} (q : Str → Bool) (l : List (Str × α)) :
    (l.filter (fun p => q p.1)).map (·.1) = (l.map (·.1)).filter q := by
  induction l with
  | nil => rfl
  | cons e rest ih =>
    rw [List.filter_cons, List.map_cons, List.filter_cons]
    by_cases h : q e.1
    · simp [h, ih]
    · simp [h, ih]

lemma insAsc_map_fst {α : Type} (x : Str × α) (l : List (Str × α)) :
    (insAsc (fun p => strToNat p.1) x l).map (·.1) =
      insAsc strToNat x.1 (l.map (·.1)) := by
  induction l with
  | nil => rfl
  | cons y ys ih =>
    rw [List.map_cons]
    simp only [insAsc]
    by_cases h : strToNat x.1 < strToNat y.1
    · rw [if_pos h, if_pos h]
      rfl
    · rw [if_neg h, if_neg h, List.map_cons, ih]

lemma sortAsc_map_fst {α : Type} (l : List (Str × α)) :
    (sortAsc (fun p => strToNat p.1) l).map (·.1) = sortAsc strToNat (l.map (·.1)) := by
  induction l with
  | nil => rfl
  | cons x xs ih =>
    rw [List.map_cons]
    simp only [sortAsc]
    rw [insAsc_map_fst, ih]

lemma jsEntriesOrder_map_fst {α : Type} (l : List (Str × α)) :
    (jsEntriesOrder l).map (·.1) =
      sortAsc strToNat ((l.map (·.1)).filter isArrayIndexKey) ++
        (l.map (·.1)).filter (fun t => !isArrayIndexKey t) := by
  unfold jsEntriesOrder
  rw [List.map_append, sortAsc_map_fst, map_fst_filter isArrayIndexKey,
    map_fst_filter (fun t => !isArrayIndexKey t)]

lemma extractKeywords_enum (text : Str) :
    (jsEntriesOrder (countFrequencies (tokenize text))).map (·.1) =
      enumOrderTokens text := by
  rw [jsEntriesOrder_map_fst, countFrequencies_keys]
  rfl

/-- C5 (amended): for every text and bound, `extractKeywords` returns at most
`maxKeywords` tokens, each of length greater than 2, not in the stop-word set
and occurring in the tokenized text; any two returned tokens (in output order)
have non-increasing frequency among the surviving tokens, and on equal
frequency they appear in the `Object.entries` enumeration order — array-index
-like tokens first in ascending numeric order, then the rest in
first-encountered text order.  When no surviving token is array-index-like,
that enumeration order is exactly first-encountered order. -/
theorem C5_keyword_extraction (text : Str) (maxKeywords : Nat) :
    (extractKeywords text maxKeywords).length ≤ maxKeywords ∧
    (∀ k ∈ extractKeywords text maxKeywords,
      2 < k.length ∧ k ∉ STOP_WORDS ∧ k ∈ tokenize text) ∧
    (∀ a b, [a, b].Sublist (extractKeywords text maxKeywords) →
      freqOf text b ≤ freqOf text a ∧
      (freqOf text b = freqOf text a → [a, b].Sublist (enumOrderTokens text))) ∧
    ((jsDedup (nonStopTokens text)).all (fun t => !isArrayIndexKey t) = true →
      enumOrderTokens text = jsDedup (nonStopTokens text)) := by
  have hnd : ((countFrequencies (tokenize text)).map (·.1)).Nodup := by
    rw [countFrequencies_keys]
    exact jsDedupGo_nodup _ _
  refine ⟨?_, ?_, ?_, ?_⟩
  · unfold extractKeywords
    rw [List.length_map]
    exact List.length_take_le _ _
  · intro k hk
    unfold extractKeywords at hk
    obtain ⟨p, hp, rfl⟩ := List.mem_map.mp hk
    have hp2 : p ∈ sortDesc (fun p : Str × Nat => p.2)
        (jsEntriesOrder (countFrequencies (tokenize text))) :=
      List.mem_of_mem_take hp
    have hpf : p ∈ countFrequencies (tokenize text) :=
      (mem_jsEntriesOrder _ _).mp ((mem_sortDesc _ _ _).mp hp2)
    have hk1 : p.1 ∈ (countFrequencies (tokenize text)).map (·.1) :=
      List.mem_map.mpr ⟨p, hpf, rfl⟩
    rw [countFrequencies_keys] at hk1
    unfold jsDedup at hk1
    rw [mem_jsDedupGo] at hk1
    have hfl := List.mem_filter.mp hk1.1
    have hsw : p.1 ∉ STOP_WORDS := by
      have := hfl.2
      simpa using this
    have htok : p.1 ∈ tokenize text := hfl.1
    have hlen : 2 < p.1.length := by
      unfold tokenize at htok
      have := (List.mem_filter.mp htok).2
      simpa using this
    exact ⟨hlen, hsw, htok⟩
  · intro a b hab
    unfold extractKeywords at hab
    obtain ⟨pa, pb, hs, ha, hb⟩ := pair_sublist_map (fun p : Str × Nat => p.1) a b _ hab
    obtain ⟨va, hpa⟩ : ∃ v, pa = (a, v) := ⟨pa.2, by rw [← ha]⟩
    obtain ⟨vb, hpb⟩ : ∃ v, pb = (b, v) := ⟨pb.2, by rw [← hb]⟩
    subst hpa
    subst hpb
    have hss : [(a, va), (b, vb)].Sublist
        (sortDesc (fun p : Str × Nat => p.2)
          (jsEntriesOrder (countFrequencies (tokenize text)))) :=
      hs.trans (List.take_sublist _ _)
    have hpw := (sortDesc_pairwise (fun p : Str × Nat => p.2)
      (jsEntriesOrder (countFrequencies (tokenize text)))).sublist hss
    have hrel : vb ≤ va := by
      have h1 := (List.pairwise_cons.mp hpw).1 (b, vb) (List.mem_singleton.mpr rfl)
      simpa using h1
    have hmem_a : (a, va) ∈ countFrequencies (tokenize text) :=
      (mem_jsEntriesOrder _ _).mp ((mem_sortDesc _ _ _).mp (hss.subset (by simp)))
    have hmem_b : (b, vb) ∈ countFrequencies (tokenize text) :=
      (mem_jsEntriesOrder _ _).mp ((mem_sortDesc _ _ _).mp (hss.subset (by simp)))
    have hget_a : alistGet? (countFrequencies (tokenize text)) a = some va :=
      alistGet?_of_mem_nodup hnd hmem_a
    have hget_b : alistGet? (countFrequencies (tokenize text)) b = some vb :=
      alistGet?_of_mem_nodup hnd hmem_b
    rw [countFrequencies_get] at hget_a hget_b
    have hfa : freqOf text a = va := by
      unfold freqOf nonStopTokens
      by_cases hm : a ∈ (tokenize text).filter (fun t => !decide (t ∈ STOP_WORDS))
      · rw [if_pos hm] at hget_a
        exact Option.some.inj hget_a
      · rw [if_neg hm] at hget_a
        exact Option.noConfusion hget_a
    have hfb : freqOf text b = vb := by
      unfold freqOf nonStopTokens
      by_cases hm : b ∈ (tokenize text).filter (fun t => !decide (t ∈ STOP_WORDS))
      · rw [if_pos hm] at hget_b
        exact Option.some.inj hget_b
      · rw [if_neg hm] at hget_b
        exact Option.noConfusion hget_b
    refine ⟨by rw [hfa, hfb]; exact hrel, ?_⟩
    intro heq
    have hv : vb = va := by rw [← hfa, ← hfb]; exact heq
    subst hv
    have hfilt := hss.filter (fun y : Str × Nat => decide (y.2 = vb))
    have hpair : [((a : Str), vb), (b, vb)].filter (fun y : Str × Nat => decide (y.2 = vb)) =
        [(a, vb), (b, vb)] := by simp
    rw [hpair, sortDesc_filter] at hfilt
    have hfr : [((a : Str), vb), (b, vb)].Sublist
        (jsEntriesOrder (countFrequencies (tokenize text))) :=
      hfilt.trans (List.filter_sublist _)
    have hmap := hfr.map (·.1)
    rw [extractKeywords_enum] at hmap
    simpa using hmap
  · intro hall
    have hpos : (jsDedup (nonStopTokens text)).filter (fun t => isArrayIndexKey t) = [] := by
      rw [List.filter_eq_nil_iff]
      intro t ht
      have := List.all_eq_true.mp hall t ht
      simpa using this
    have hneg : (jsDedup (nonStopTokens text)).filter (fun t => !isArrayIndexKey t) =
        jsDedup (nonStopTokens text) :=
      List.filter_eq_self.mpr (fun t ht => List.all_eq_true.mp hall t ht)
    unfold enumOrderTokens
    rw [hpos, hneg]
    rfl

/-- C5: refuted as stated.  For the text `"zzz 404 zzz 404"` both surviving
tokens occur twice, and `"zzz"` is encountered first; but `Object.entries`
enumerates the array-index-like key `"404"` before the insertion-ordered key
`"zzz"`, so the stable descending sort returns `["404", "zzz"]` — the
equal-frequency pair is not in first-encountered order. -/
theorem C5_counterexample :
    extractKeywords "zzz 404 zzz 404".toList 10 = ["404".toList, "zzz".toList] ∧
    jsDedup (nonStopTokens "zzz 404 zzz 404".toList) = ["zzz".toList, "404".toList] ∧
    freqOf "zzz 404 zzz 404".toList "404".toList =
      freqOf "zzz 404 zzz 404".toList "zzz".toList ∧
    ¬ ["404".toList, "zzz".toList].Sublist
      (jsDedup (nonStopTokens "zzz 404 zzz 404".toList)) := by
  decide

lemma fmtExchanges_est_le (maxTokens : Nat) :
    ∀ (exs : List Exchange) (est : Nat), est ≤ (fmtExchanges maxTokens est exs).2 := by
  intro exs
  induction exs with
  | nil => intro est; exact le_refl est
  | cons e rest ih =>
    intro est
    unfold fmtExchanges
    by_cases hov : maxTokens < est + (exchangeText e).length.add 3 / 4
    · rw [if_pos hov]
    · rw [if_neg hov]
      exact le_trans (Nat.le_add_right est _) (ih (est + (exchangeText e).length.add 3 / 4))

lemma fmtExchanges_lines (maxTokens : Nat) :
    ∀ (exs : List Exchange) (est : Nat), maxTokens ≤ 50 + est →
      ∀ line ∈ (fmtExchanges maxTokens est exs).1, ∃ e ∈ exs, line = exchangeText e := by
  intro exs
  induction exs with
  | nil => intro est _ line hl; simp [fmtExchanges] at hl
  | cons e rest ih =>
    intro est hest line hl
    unfold fmtExchanges at hl
    by_cases hov : maxTokens < est + (exchangeText e).length.add 3 / 4
    · rw [if_pos hov] at hl
      simp only at hl
      have hno : ¬ 50 < maxTokens - est := by omega
      rw [if_neg hno] at hl
      simp at hl
    · rw [if_neg hov] at hl
      simp only [List.mem_cons] at hl
      rcases hl with rfl | hl2
      · exact ⟨e, List.mem_cons_self _ _, rfl⟩
      · obtain ⟨e', he', hline⟩ := ih _ (by omega) line hl2
        exact ⟨e', List.mem_cons_of_mem _ he', hline⟩

lemma fmtMatches_lines (maxTokens : Nat) :
    ∀ (ms : List CtxMatch) (est : Nat), maxTokens ≤ 50 + est →
      ∀ line ∈ (fmtMatches maxTokens est ms).1,
        ∃ m ∈ ms, ∃ exs, m.exchanges = some exs ∧ ∃ e ∈ exs, line = exchangeText e := by
  intro ms
  induction ms with
  | nil => intro est _ line hl; simp [fmtMatches] at hl
  | cons m rest ih =>
    intro est hest line hl
    unfold fmtMatches at hl
    cases hex : m.exchanges with
    | none =>
      rw [hex] at hl
      obtain ⟨m', hm', hrest⟩ := ih est hest line hl
      exact ⟨m', List.mem_cons_of_mem _ hm', hrest⟩
    | some exs =>
      rw [hex] at hl
      simp only at hl
      by_cases hemp : exs.isEmpty
      · rw [if_pos hemp] at hl
        obtain ⟨m', hm', hrest⟩ := ih est hest line hl
        exact ⟨m', List.mem_cons_of_mem _ hm', hrest⟩
      · rw [if_neg hemp] at hl
        by_cases hstop : 9 * maxTokens ≤ 10 * (fmtExchanges maxTokens est exs).2
        · rw [if_pos hstop] at hl
          obtain ⟨e, he, hline⟩ := fmtExchanges_lines maxTokens exs est hest line hl
          exact ⟨m, List.mem_cons_self _ _, exs, hex, e, he, hline⟩
        · rw [if_neg hstop] at hl
          simp only [List.mem_append] at hl
          rcases hl with hl1 | hl2
          · obtain ⟨e, he, hline⟩ := fmtExchanges_lines maxTokens exs est hest line hl1
            exact ⟨m, List.mem_cons_self _ _, exs, hex, e, he, hline⟩
          · have hest2 : maxTokens ≤ 50 + (fmtExchanges maxTokens est exs).2 := by
              have := fmtExchanges_est_le maxTokens exs est
              omega
            obtain ⟨m', hm', hrest⟩ := ih _ hest2 line hl2
            exact ⟨m', List.mem_cons_of_mem _ hm', hrest⟩

/-- C6: refuted as stated.  `cx6m`'s single exchange costs 53 estimated tokens,
exceeding the 50-token budget, yet `formatContextForInjection` with
`maxTokens = 50` emits only the header and footer: no ellipsis (indeed no `.`
character) appears anywhere in the output, because truncation requires more
than 50 remaining tokens while at most 40 can remain. -/
theorem C6_counterexample :
    50 < 10 + ((exchangeText cx6ex).length + 3) / 4 ∧
    formatContextForInjection [cx6m] 50 = CTX_HEADER ++ CTX_FOOTER ∧
    (formatContextForInjection [cx6m] 50).count '.' = 0 := by decide

/-- C6 (amended): with `maxTokens = 50` the truncation branch can never fire —
it requires more than 50 remaining tokens, but at most 40 remain after the
10-token header overhead — so no truncated-with-ellipsis line is ever
produced: the output is the header, whole exchange texts only, and the
footer. -/
theorem C6_no_truncation_at_50 (ms : List CtxMatch) (hne : ms ≠ []) :
    formatContextForInjection ms 50 =
      (CTX_HEADER :: ((fmtMatches 50 10 ms).1 ++ [CTX_FOOTER])).flatten ∧
    ∀ line ∈ (fmtMatches 50 10 ms).1,
      ∃ m ∈ ms, ∃ exs, m.exchanges = some exs ∧ ∃ e ∈ exs, line = exchangeText e := by
  constructor
  · unfold formatContextForInjection
    rw [if_neg (by simp [List.isEmpty_iff]; exact hne)]
  · exact fmtMatches_lines 50 ms 10 (by omega)

theorem C6_no_truncation_at_50_witness :
    ([cx6m] ≠ []) ∧
    (formatContextForInjection [cx6m] 50 =
        (CTX_HEADER :: ((fmtMatches 50 10 [cx6m]).1 ++ [CTX_FOOTER])).flatten ∧
      ∀ line ∈ (fmtMatches 50 10 [cx6m]).1,
        ∃ m ∈ [cx6m], ∃ exs, m.exchanges = some exs ∧ ∃ e ∈ exs, line = exchangeText e) :=
  ⟨by decide, C6_no_truncation_at_50 [cx6m] (by decide)⟩

/-! ## Graceful failure of the loaders -/

/-- C8: a failed read of the index file makes `loadIndex` return the empty
index for the instance, and a failed read of a resolved conversation file
makes `loadConversation` return `none`; both loaders are total functions (the
embedding returns a value on every input, the `try/catch` in the source never
rethrows). -/
theorem C8_graceful_failure (fs : Fs) (base inst now : Str) (cid : JsVal) :
    (fsRead fs (indexFilePath base inst) = none →
      loadIndex fs base inst now = createEmptyIndex inst now) ∧
    (∀ item, (loadIndex fs base inst now).recent.find?
        (fun it => jsStrictEq it.id cid) = some item →
      fsRead fs (joinPath (joinPath base inst) item.path) = none →
      loadConversation fs base inst cid now = none) := by
  constructor
  · intro hread
    unfold loadIndex
    rw [hread]
  · intro item hfind hread
    show (match (loadIndex fs base inst now).recent.find?
        (fun it => jsStrictEq it.id cid) with
      | none => none
      | some item =>
        (fsRead fs (joinPath (joinPath base inst) item.path)).map
          parseConversationMarkdown) = none
    rw [hfind]
    show (fsRead fs (joinPath (joinPath base inst) item.path)).map
      parseConversationMarkdown = none
    rw [hread]
    rfl

theorem C8_graceful_failure_witness :
    loadIndex ⟨[]⟩ "b".toList "i".toList "now".toList =
      createEmptyIndex "i".toList "now".toList :=
  (C8_graceful_failure ⟨[]⟩ "b".toList "i".toList "now".toList
    (.str "c".toList)).1 (by decide)

/-- C9: `loadConversation` (and the public `getConversation`) resolves an id
only through the index's `recent` list: whenever the id matches no entry of
`recent`, the result is `none`, regardless of which conversation files exist
in the filesystem. -/
theorem C9_recent_only (cfg : MemConfig) (st : MemState) (cidS : Str) (now : Str)
    (h : ∀ item ∈ (loadIndex st.fs cfg.basePath cfg.instanceName now).recent,
      jsStrictEq item.id (.str cidS) = false) :
    loadConversation st.fs cfg.basePath cfg.instanceName (.str cidS) now = none ∧
    getConversation cfg st cidS now = none := by
  have hfind : (loadIndex st.fs cfg.basePath cfg.instanceName now).recent.find?
      (fun item => jsStrictEq item.id (.str cidS)) = none :=
    List.find?_eq_none.mpr (fun item hm => by rw [h item hm]; exact Bool.false_ne_true)
  have hload : loadConversation st.fs cfg.basePath cfg.instanceName (.str cidS) now = none := by
    show (match (loadIndex st.fs cfg.basePath cfg.instanceName now).recent.find?
        (fun item => jsStrictEq item.id (.str cidS)) with
      | none => none
      | some item =>
        (fsRead st.fs (joinPath (joinPath cfg.basePath cfg.instanceName) item.path)).map
          parseConversationMarkdown) = none
    rw [hfind]
  refine ⟨hload, ?_⟩
  unfold getConversation
  by_cases he : cfg.enabled
  · rw [if_pos he]
    exact hload
  · rw [if_neg he]

theorem C9_recent_only_witness :
    fsRead c9fs (joinPath (joinPath "b".toList "i".toList)
      "conversations/2024-01-01/conv-c1.md".toList) = some "x".toList ∧
    (∀ item ∈ (loadIndex c9st.fs c9cfg.basePath c9cfg.instanceName "n".toList).recent,
      jsStrictEq item.id (.str "c1".toList) = false) ∧
    (loadConversation c9st.fs c9cfg.basePath c9cfg.instanceName
        (.str "c1".toList) "n".toList = none ∧
      getConversation c9cfg c9st "c1".toList "n".toList = none) :=
  ⟨by decide, by decide, C9_recent_only c9cfg c9st "c1".toList "n".toList (by decide)⟩

/-! ## Session continuity of recordConversation -/

lemma recordConversation_notfound (cfg : MemConfig) (st : MemState) (q a : Str)
    (s : JsVal) (cf : Bool) (now today nid : Str)
    (hen : cfg.enabled = true) (hs : jsTruthy s = true)
    (hf : findConversationBySessionId st.fs cfg.basePath cfg.instanceName s now = none) :
    recordConversation cfg st q a s cf now today nid =
      (let keywords := extractKeywordsFromExchange q a 10
       let topics := extractTopicsFromExchange q a []
       let conv := createConversation s q a keywords topics now nid
       let saved := saveConversation st.fs cfg.basePath cfg.instanceName today conv
       let updated := updateIndex (getCachedIndex cfg st cf now) conv saved.1 now
       ({ recorded := true, conversationId := some conv.id,
          isNewConversation := some true,
          keywords := some keywords, topics := some topics, failReason := none },
        { fs := saveIndex saved.2 cfg.basePath cfg.instanceName updated now,
          indexCache := some updated })) := by
  unfold recordConversation
  rw [hen, hs, hf]
  rfl

lemma recordConversation_found (cfg : MemConfig) (st : MemState) (q a : Str)
    (s : JsVal) (cf : Bool) (now today nid : Str) (c : Conversation)
    (hen : cfg.enabled = true) (hs : jsTruthy s = true)
    (hf : findConversationBySessionId st.fs cfg.basePath cfg.instanceName s now = some c) :
    recordConversation cfg st q a s cf now today nid =
      (let keywords := extractKeywordsFromExchange q a 10
       let topics := extractTopicsFromExchange q a []
       let conv := appendToConversation c q a keywords topics now
       let saved := saveConversation st.fs cfg.basePath cfg.instanceName today conv
       let updated := updateIndex (getCachedIndex cfg st cf now) conv saved.1 now
       ({ recorded := true, conversationId := some conv.id,
          isNewConversation := some (conv.exchanges.length == 1),
          keywords := some keywords, topics := some topics, failReason := none },
        { fs := saveIndex saved.2 cfg.basePath cfg.instanceName updated now,
          indexCache := some updated })) := by
  unfold recordConversation
  rw [hen, hs, hf]
  rfl

lemma c7_jsTruthy (sid : Str) (hne : sid ≠ []) : jsTruthy (.str sid) = true := by
  cases sid with
  | nil => exact absurd rfl hne
  | cons c t => rfl

lemma c7_found1 (sid : Str) :
    findConversationBySessionId c7st0.fs "b".toList "i".toList (.str sid) c7now1 = none := by
  unfold findConversationBySessionId
  rw [show (loadIndex c7st0.fs "b".toList "i".toList c7now1).recent = [] from by decide]
  rfl

lemma c7_call1_eq (sid : Str) (hne : sid ≠ []) :
    c7call1 sid =
      ({ recorded := true, conversationId := some (.str "id1".toList),
         isNewConversation := some true, keywords := some c7kws, topics := some c7tps,
         failReason := none }, c7st1 sid) := by
  unfold c7call1
  rw [recordConversation_notfound c7cfg c7st0 c7q c7a (.str sid) false c7now1 c7day
    "id1".toList rfl (c7_jsTruthy sid hne) (c7_found1 sid)]
  rfl

lemma c7_goodConv1 (sid : Str) (hg : goodScalar sid) : goodConv (c7conv1 sid) := by
  refine ⟨⟨"id1".toList, rfl, by decide⟩, ⟨sid, rfl, hg⟩,
    ⟨c7now1, rfl, by decide⟩, ⟨c7now1, rfl, by decide⟩,
    ⟨c7kws, rfl, by decide, by decide⟩, ⟨c7tps, rfl, by decide, by decide⟩, ?_⟩
  intro e he
  have he2 : e = { timestamp := c7now1, question := c7q, answer := c7a } := by
    simpa [c7conv1, createConversation] using he
  rw [he2]
  decide

lemma c7_roundtrip1 (sid : Str) (hg : goodScalar sid) :
    parseConversationMarkdown (generateConversationMarkdown (c7conv1 sid)) = c7parsed1 sid :=
  goodConv_roundtrip (c7conv1 sid) (c7_goodConv1 sid hg)

lemma c7_readidx (sid : Str) :
    fsRead (c7fs1 sid) (indexFilePath "b".toList "i".toList) = some c7ic1 := rfl

lemma c7_rec2 (sid : Str) :
    (loadIndex (c7fs1 sid) "b".toList "i".toList c7now2).recent = [c7e1] := by
  unfold loadIndex
  rw [c7_readidx]
  show (parseIndexMarkdown c7ic1).recent = [c7e1]
  decide

lemma c7_readconv (sid : Str) :
    fsRead (c7fs1 sid) (joinPath (joinPath "b".toList "i".toList) c7p1) =
      some (generateConversationMarkdown (c7conv1 sid)) := rfl

lemma loadConversation_single (fs : Fs) (base inst now : Str) (cid : JsVal)
    (e : RecentEntry)
    (hrec : (loadIndex fs base inst now).recent = [e])
    (hid : jsStrictEq e.id cid = true) :
    loadConversation fs base inst cid now =
      (fsRead fs (joinPath (joinPath base inst) e.path)).map parseConversationMarkdown := by
  show (match (loadIndex fs base inst now).recent.find?
      (fun item => jsStrictEq item.id cid) with
    | none => none
    | some item =>
      (fsRead fs (joinPath (joinPath base inst) item.path)).map
        parseConversationMarkdown) =
    (fsRead fs (joinPath (joinPath base inst) e.path)).map parseConversationMarkdown
  rw [hrec]
  rw [show [e].find? (fun item => jsStrictEq item.id cid) = some e from by
    simp [List.find?, hid]]

lemma findBySession_single (fs : Fs) (base inst now : Str) (s : JsVal)
    (e : RecentEntry) (c : Conversation)
    (hrec : (loadIndex fs base inst now).recent = [e])
    (hload : loadConversation fs base inst e.id now = some c)
    (hsid : jsStrictEq c.sessionId s = true) :
    findConversationBySessionId fs base inst s now = some c := by
  show ((loadIndex fs base inst now).recent.findSome? (fun item =>
    match loadConversation fs base inst item.id now with
    | some conv => if jsStrictEq conv.sessionId s then some conv else none
    | none => none)) = some c
  rw [hrec, List.findSome?_cons]
  rw [hload]
  simp [hsid]

lemma c7_loadconv (sid : Str) (hg : goodScalar sid) :
    loadConversation (c7fs1 sid) "b".toList "i".toList c7e1.id c7now2 =
      some (c7parsed1 sid) := by
  rw [loadConversation_single (c7fs1 sid) "b".toList "i".toList c7now2 c7e1.id c7e1
    (c7_rec2 sid) (by decide)]
  rw [show c7e1.path = c7p1 from rfl, c7_readconv]
  simp only [Option.map_some']
  rw [c7_roundtrip1 sid hg]

lemma c7_found2 (sid : Str) (hg : goodScalar sid) :
    findConversationBySessionId (c7fs1 sid) "b".toList "i".toList (.str sid) c7now2 =
      some (c7parsed1 sid) :=
  findBySession_single (c7fs1 sid) "b".toList "i".toList c7now2 (.str sid) c7e1
    (c7parsed1 sid) (c7_rec2 sid) (c7_loadconv sid hg)
    (by
      show jsStrictEq (.str sid) (.str sid) = true
      simp [jsStrictEq])

lemma c7_goodConv2 (sid : Str) (hg : goodScalar sid) : goodConv (c7conv2 sid) := by
  refine ⟨⟨"id1".toList, rfl, by decide⟩, ⟨sid, rfl, hg⟩,
    ⟨c7now1, rfl, by decide⟩, ⟨c7now2, rfl, by decide⟩,
    ⟨jsDedup (jsSpreadToList (.arr c7kws) ++ c7kws), rfl, by decide, by decide⟩,
    ⟨jsDedup (jsSpreadToList (.arr c7tps) ++ c7tps), rfl, by decide, by decide⟩, ?_⟩
  intro e he
  have hex : (c7conv2 sid).exchanges =
      [cleanExchange { timestamp := c7now1, question := c7q, answer := c7a },
       { timestamp := c7now2, question := c7q, answer := c7a }] := rfl
  rw [hex] at he
  rcases List.mem_cons.mp he with rfl | he2
  · decide
  · rcases List.mem_cons.mp he2 with rfl | he3
    · decide
    · simp at he3

/-- C7 (amended): when the session id is a well-formed non-empty string and
the exchange text produces a parseable index entry (as the JWT exchange here
does), the second `recordConversation` call with the same session id appends
to the conversation created by the first: it reports `recorded`,
`isNewConversation = false` and the first call's conversation id, the
conversation file holds both exchanges, and the filesystem contains exactly
one conversation file. -/
theorem C7_same_session_appends (sid : Str) (hg : goodScalar sid) (hne : sid ≠ []) :
    (c7call1 sid).1.isNewConversation = some true ∧
    (c7call1 sid).1.conversationId = some (.str "id1".toList) ∧
    (c7call2 sid).1.recorded = true ∧
    (c7call2 sid).1.isNewConversation = some false ∧
    (c7call2 sid).1.conversationId = some (.str "id1".toList) ∧
    fsRead (c7call2 sid).2.fs (joinPath (joinPath "b".toList "i".toList) c7p1) =
      some (generateConversationMarkdown (c7conv2 sid)) ∧
    (parseConversationMarkdown (generateConversationMarkdown (c7conv2 sid))).exchanges.length
      = 2 ∧
    (c7call2 sid).2.fs.files.map (·.1) =
      [indexFilePath "b".toList "i".toList,
       joinPath (joinPath "b".toList "i".toList) c7p1] := by
  have h1 := c7_call1_eq sid hne
  have h2 := recordConversation_found c7cfg (c7st1 sid) c7q c7a (.str sid) true c7now2
    c7day "id2".toList (c7parsed1 sid) rfl (c7_jsTruthy sid hne) (c7_found2 sid hg)
  have h2' : c7call2 sid =
      recordConversation c7cfg (c7st1 sid) c7q c7a (.str sid) true c7now2 c7day
        "id2".toList := by
    unfold c7call2
    rw [h1]
  refine ⟨?_, ?_, ?_, ?_, ?_, ?_, ?_, ?_⟩
  · rw [h1]
  · rw [h1]
  · rw [h2', h2]
  · rw [h2', h2]
    rfl
  · rw [h2', h2]
    rfl
  · rw [h2', h2]
    rfl
  · rw [goodConv_roundtrip (c7conv2 sid) (c7_goodConv2 sid hg)]
    rfl
  · rw [h2', h2]
    rfl

/-- C7: refuted as stated.  With the same non-empty session id on both calls
but an exchange whose text yields no keywords, the saved index line
`... (keywords: ) - path: ...` does not match the parser's recent-line
pattern, the entry is dropped on reload, the session lookup fails, and the
second call creates a second conversation: it returns
`isNewConversation = true` and the new id, and two conversation files exist. -/
theorem C7_counterexample :
    c7bcall2.1.recorded = true ∧
    c7bcall2.1.isNewConversation = some true ∧
    c7bcall2.1.conversationId = some (.str "id2".toList) ∧
    c7bcall2.2.fs.files.map (·.1) =
      [indexFilePath "b".toList "i".toList,
       joinPath (joinPath "b".toList "i".toList)
         "conversations/2024-01-01/conv-id1.md".toList,
       joinPath (joinPath "b".toList "i".toList)
         "conversations/2024-01-01/conv-id2.md".toList] := by
  decide

theorem C7_same_session_appends_witness :
    goodScalar "s1".toList ∧ "s1".toList ≠ [] ∧
    ((c7call1 "s1".toList).1.isNewConversation = some true ∧
     (c7call1 "s1".toList).1.conversationId = some (.str "id1".toList) ∧
     (c7call2 "s1".toList).1.recorded = true ∧
     (c7call2 "s1".toList).1.isNewConversation = some false ∧
     (c7call2 "s1".toList).1.conversationId = some (.str "id1".toList) ∧
     fsRead (c7call2 "s1".toList).2.fs (joinPath (joinPath "b".toList "i".toList) c7p1) =
       some (generateConversationMarkdown (c7conv2 "s1".toList)) ∧
     (parseConversationMarkdown
         (generateConversationMarkdown (c7conv2 "s1".toList))).exchanges.length = 2 ∧
     (c7call2 "s1".toList).2.fs.files.map (·.1) =
       [indexFilePath "b".toList "i".toList,
        joinPath (joinPath "b".toList "i".toList) c7p1]) :=
  ⟨by decide, by decide, C7_same_session_appends "s1".toList (by decide) (by decide)⟩
